import Mathlib

/-!
Verification development for the drift static-analysis engine.

Rational numbers stand in for the source's f64 values: every arithmetic
operation the embedded code performs (addition, multiplication, division,
min, max, clamp, comparison) is exact on the inputs the claims range over.
A small inductive wrapper models the one place the source branches on
float finiteness.
-/

namespace Drift

/-- Rust f64::clamp written literally: below the low bound gives the low
bound, above the high bound gives the high bound, otherwise the value. -/
def clampQ (x lo hi : ℚ) : ℚ :=
  if x < lo then lo else if x > hi then hi else x

theorem clampQ_le_hi {x lo hi : ℚ} (h : lo ≤ hi) : clampQ x lo hi ≤ hi := by
  unfold clampQ
  split_ifs with h1 h2 <;> linarith

theorem clampQ_ge_lo {x lo hi : ℚ} (h : lo ≤ hi) : lo ≤ clampQ x lo hi := by
  unfold clampQ
  split_ifs with h1 h2 <;> linarith

/-- Model of an f64 value in the one spot the source inspects finiteness:
a finite rational, or one of the three non-finite floats. -/
inductive FloatVal where
  | finite (q : ℚ)
  | posInf
  | negInf
  | nan
  deriving DecidableEq, Repr

/-- f64::is_finite on the model. -/
def FloatVal.isFinite : FloatVal → Bool
  | .finite _ => true
  | _ => false

/-- Momentum direction of a pattern (confidence/types.rs). -/
inductive MomentumDirection where
  | Rising
  | Stable
  | Falling
  deriving DecidableEq, Repr

/-- Weights for the 5-factor model (factors.rs). -/
def WEIGHT_FREQUENCY : ℚ := 30 / 100
def WEIGHT_CONSISTENCY : ℚ := 25 / 100
def WEIGHT_AGE : ℚ := 10 / 100
def WEIGHT_SPREAD : ℚ := 15 / 100
def WEIGHT_MOMENTUM : ℚ := 20 / 100

/-- Input data for the 5-factor model (factors.rs FactorInput). -/
structure FactorInput where
  occurrences : ℕ
  total_locations : ℕ
  variance : FloatVal
  days_since_first_seen : ℕ
  file_count : ℕ
  total_files : ℕ
  momentum : MomentumDirection
  deriving DecidableEq, Repr

/-- Computed factor values (factors.rs FactorValues). -/
structure FactorValues where
  frequency : ℚ
  consistency : ℚ
  age : ℚ
  spread : ℚ
  momentum : ℚ
  deriving DecidableEq, Repr

/-- Factor 1: Frequency (factors.rs compute_frequency). -/
def compute_frequency (occurrences total_locations : ℕ) : ℚ :=
  if total_locations = 0 then 0
  else clampQ ((occurrences : ℚ) / (total_locations : ℚ)) 0 1

/-- Factor 2: Consistency (factors.rs compute_consistency). The source
returns 1.0 when the variance is non-finite or negative. -/
def compute_consistency (variance : FloatVal) : ℚ :=
  match variance with
  | .finite q => if q < 0 then 1 else clampQ (1 - q) 0 1
  | _ => 1

/-- Factor 3: Age (factors.rs compute_age), linear ramp over 30 days. -/
def compute_age (days_since_first_seen : ℕ) : ℚ :=
  if days_since_first_seen = 0 then 1 / 10
  else if (days_since_first_seen : ℚ) ≥ 30 then 1
  else 1 / 10 + ((days_since_first_seen : ℚ) / 30) * (1 - 1 / 10)

/-- Factor 4: Spread (factors.rs compute_spread). -/
def compute_spread (file_count total_files : ℕ) : ℚ :=
  if total_files = 0 then 0
  else clampQ ((file_count : ℚ) / (total_files : ℚ)) 0 1

/-- Factor 5: Momentum (factors.rs compute_momentum). -/
def compute_momentum (direction : MomentumDirection) : ℚ :=
  match direction with
  | .Rising => 8 / 10
  | .Stable => 5 / 10
  | .Falling => 2 / 10

/-- Compute all 5 factors (factors.rs compute_factors). -/
def compute_factors (input : FactorInput) : FactorValues :=
  { frequency := compute_frequency input.occurrences input.total_locations
    consistency := compute_consistency input.variance
    age := compute_age input.days_since_first_seen
    spread := compute_spread input.file_count input.total_files
    momentum := compute_momentum input.momentum }

/-- Weighted composite score, clamped (factors.rs weighted_score). -/
def weighted_score (factors : FactorValues) : ℚ :=
  clampQ
    (factors.frequency * WEIGHT_FREQUENCY
      + factors.consistency * WEIGHT_CONSISTENCY
      + factors.age * WEIGHT_AGE
      + factors.spread * WEIGHT_SPREAD
      + factors.momentum * WEIGHT_MOMENTUM)
    0 1

/-- Alpha/beta adjustments from the factor values
(factors.rs factors_to_alpha_beta). -/
def factors_to_alpha_beta (factors : FactorValues) (sample_size : ℕ) : ℚ × ℚ :=
  let score := weighted_score factors
  let n := max (sample_size : ℚ) 1
  let blend_weight := min (n / (n + 10)) 1
  let alpha_contribution := score * blend_weight * n
  let beta_contribution := (1 - score) * blend_weight * n
  (max alpha_contribution 0, max beta_contribution 0)

/-- Discrete confidence tier (confidence/types.rs ConfidenceTier). -/
inductive ConfidenceTier where
  | Established
  | Emerging
  | Tentative
  | Uncertain
  deriving DecidableEq, Repr

/-- Modelled from the spec: confidence/types.rs is not in the sources; the
spec derives the tier from the posterior mean with thresholds
Established at 0.85, Emerging at 0.65, Tentative at 0.40. -/
def ConfidenceTier.from_posterior_mean (m : ℚ) : ConfidenceTier :=
  if m ≥ 85 / 100 then .Established
  else if m ≥ 65 / 100 then .Emerging
  else if m ≥ 40 / 100 then .Tentative
  else .Uncertain

/-- Modelled from the spec: confidence/beta.rs is not in the sources; the
spec gives the posterior mean of a Beta distribution as alpha over
alpha plus beta. -/
def BetaPosterior.posterior_mean (alpha beta : ℚ) : ℚ :=
  alpha / (alpha + beta)

/-- Modelled from the spec: confidence/beta.rs is not in the sources; the
spec gives the base posterior parameters over a uniform prior as
alpha equal to one plus the successes and beta equal to one plus the
failures (total observations minus successes). -/
def BetaPosterior.posterior_params (successes total_observations : ℕ) : ℚ × ℚ :=
  (1 + (successes : ℚ), 1 + ((total_observations : ℚ) - (successes : ℚ)))

/-- Confidence score record (confidence/types.rs ConfidenceScore).
Modelled from the spec: the type itself is not in the sources; the fields
the embedded scorer and discoverer read are kept (the 95% credible
interval, unused by those functions, is omitted). -/
structure ConfidenceScore where
  alpha : ℚ
  beta : ℚ
  posterior_mean : ℚ
  tier : ConfidenceTier
  momentum : MomentumDirection
  deriving DecidableEq, Repr

/-- Modelled from the spec: the constructor deriving mean and tier from
the final Beta parameters (Step 4 of the scorer). -/
def ConfidenceScore.from_params (alpha beta : ℚ) (momentum : MomentumDirection) :
    ConfidenceScore :=
  let m := BetaPosterior.posterior_mean alpha beta
  { alpha := alpha
    beta := beta
    posterior_mean := m
    tier := ConfidenceTier.from_posterior_mean m
    momentum := momentum }

/-- Modelled from the spec: the uniform prior has both Beta parameters
equal to one; the momentum of an unscored pattern defaults to Stable. -/
def ConfidenceScore.uniform_prior : ConfidenceScore :=
  ConfidenceScore.from_params 1 1 .Stable

/-- Aggregated pattern record (aggregation/types.rs AggregatedPattern).
Modelled from the spec: the type itself is not in the sources; the fields
read by the confidence scorer and the convention discoverer are kept, and
the source's PatternCategory tag is carried as its name string (the form
the discoverer groups on). -/
structure AggregatedPattern where
  pattern_id : String
  category : String
  location_count : ℕ
  outlier_count : ℕ
  file_spread : ℕ
  confidence_mean : ℚ
  confidence_stddev : ℚ
  deriving DecidableEq, Repr

/-- Configuration for the confidence scorer (scorer.rs ScorerConfig). -/
structure ScorerConfig where
  total_files : ℕ
  default_age_days : ℕ
  deriving DecidableEq, Repr

/-- The factor input the scorer builds for a pattern (inlined in
scorer.rs ConfidenceScorer::score, Step 2). -/
def ConfidenceScorer.factor_input (config : ScorerConfig)
    (pattern : AggregatedPattern) (momentum : MomentumDirection)
    (days_since_first_seen : ℕ) : FactorInput :=
  { occurrences := pattern.location_count
    total_locations := max config.total_files 1
    variance := .finite (pattern.confidence_stddev ^ 2)
    days_since_first_seen := days_since_first_seen
    file_count := pattern.file_spread
    total_files := config.total_files
    momentum := momentum }

/-- Score a single aggregated pattern (scorer.rs ConfidenceScorer::score). -/
def ConfidenceScorer.score (config : ScorerConfig)
    (pattern : AggregatedPattern) (momentum : MomentumDirection)
    (days_since_first_seen : ℕ) : ConfidenceScore :=
  let total_observations := config.total_files
  let successes := pattern.file_spread
  let base := BetaPosterior.posterior_params successes total_observations
  let factor_values :=
    compute_factors
      (ConfidenceScorer.factor_input config pattern momentum days_since_first_seen)
  let adj := factors_to_alpha_beta factor_values pattern.location_count
  ConfidenceScore.from_params (base.1 + adj.1) (base.2 + adj.2) momentum

theorem weighted_score_nonneg (fv : FactorValues) : 0 ≤ weighted_score fv :=
  clampQ_ge_lo (by norm_num)

theorem weighted_score_le_one (fv : FactorValues) : weighted_score fv ≤ 1 :=
  clampQ_le_hi (by norm_num)

/-- Reference definition of the frequency factor, following the claim
wording: occurrences over total locations clamped to the unit interval,
and zero when the total is zero. -/
def refFrequency (occurrences total_locations : ℕ) : ℚ :=
  if total_locations = 0 then 0
  else clampQ ((occurrences : ℚ) / (total_locations : ℚ)) 0 1

/-- Reference definition of the consistency factor, following the claim
wording: one minus the variance clamped to the unit interval, and exactly
one for negative or non-finite variance. -/
def refConsistency (variance : FloatVal) : ℚ :=
  match variance with
  | .finite q => if q < 0 then 1 else clampQ (1 - q) 0 1
  | _ => 1

/-- Reference definition of the spread factor, following the claim
wording: file count over total files clamped, and zero when the total is
zero. -/
def refSpread (file_count total_files : ℕ) : ℚ :=
  if total_files = 0 then 0
  else clampQ ((file_count : ℚ) / (total_files : ℚ)) 0 1

/-- C9: each confidence factor equals its reference definition; the age
factor is the stated ramp staying inside the interval from 0.1 to 1; the
momentum factor takes the three stated values; the composite is the
stated weighted sum clamped to the unit interval; and the five weights
sum exactly to one. -/
theorem confidence_factors_match_reference :
    (∀ occ tot, compute_frequency occ tot = refFrequency occ tot)
    ∧ (∀ v, compute_consistency v = refConsistency v)
    ∧ (compute_age 0 = 1 / 10)
    ∧ (∀ d, 30 ≤ d → compute_age d = 1)
    ∧ (∀ d, 0 < d → d < 30 →
        compute_age d = 1 / 10 + ((d : ℚ) / 30) * (9 / 10))
    ∧ (∀ d, 1 / 10 ≤ compute_age d ∧ compute_age d ≤ 1)
    ∧ (∀ fc tf, compute_spread fc tf = refSpread fc tf)
    ∧ (compute_momentum .Rising = 8 / 10 ∧ compute_momentum .Stable = 5 / 10
        ∧ compute_momentum .Falling = 2 / 10)
    ∧ (∀ fv, weighted_score fv
        = clampQ (30 / 100 * fv.frequency + 25 / 100 * fv.consistency
            + 10 / 100 * fv.age + 15 / 100 * fv.spread
            + 20 / 100 * fv.momentum) 0 1)
    ∧ WEIGHT_FREQUENCY + WEIGHT_CONSISTENCY + WEIGHT_AGE + WEIGHT_SPREAD
        + WEIGHT_MOMENTUM = 1 := by
  refine ⟨fun _ _ => rfl, fun _ => rfl, rfl, ?_, ?_, ?_, fun _ _ => rfl,
    ⟨rfl, rfl, rfl⟩, ?_, by norm_num [WEIGHT_FREQUENCY, WEIGHT_CONSISTENCY,
      WEIGHT_AGE, WEIGHT_SPREAD, WEIGHT_MOMENTUM]⟩
  · intro d hd
    unfold compute_age
    have h30 : (30 : ℚ) ≤ (d : ℚ) := by exact_mod_cast hd
    have hd0 : d ≠ 0 := by omega
    simp [hd0, h30]
  · intro d hd0 hd30
    unfold compute_age
    have h1 : ¬ ((d : ℚ) ≥ 30) := by
      push_neg
      exact_mod_cast hd30
    have h2 : d ≠ 0 := by omega
    simp only [h2, if_false, h1]
    norm_num
  · intro d
    unfold compute_age
    split_ifs with h1 h2
    · norm_num
    · norm_num
    · have hd : (0 : ℚ) ≤ (d : ℚ) := Nat.cast_nonneg d
      have hlt : (d : ℚ) < 30 := by linarith [not_le.mp (by exact_mod_cast h2)]
      constructor <;> nlinarith
  · intro fv
    unfold weighted_score
    congr 1
    unfold WEIGHT_FREQUENCY WEIGHT_CONSISTENCY WEIGHT_AGE WEIGHT_SPREAD
      WEIGHT_MOMENTUM
    ring

/-- Witness for C9 at concrete ages: applies the ramp clauses at 45 and
15 days. -/
theorem confidence_factors_match_reference_witness :
    compute_age 45 = 1
      ∧ compute_age 15 = 1 / 10 + ((15 : ℚ) / 30) * (9 / 10) :=
  ⟨confidence_factors_match_reference.2.2.2.1 45 (by norm_num),
    confidence_factors_match_reference.2.2.2.2.1 15 (by norm_num) (by norm_num)⟩

/-- C1: the scorer's final Beta parameters are the base posterior
parameters (one plus the spread, one plus total minus spread) moved by
the evidence-strength deltas W times blend times n and its complement,
with n the location count floored at one and blend equal to
n over n plus ten capped at one. -/
theorem confidence_scorer_final_params (config : ScorerConfig)
    (pattern : AggregatedPattern) (momentum : MomentumDirection)
    (days : ℕ) :
    (ConfidenceScorer.score config pattern momentum days).alpha
      = (1 + (pattern.file_spread : ℚ))
        + weighted_score (compute_factors
            (ConfidenceScorer.factor_input config pattern momentum days))
          * min 1 (max 1 (pattern.location_count : ℚ)
              / (max 1 (pattern.location_count : ℚ) + 10))
          * max 1 (pattern.location_count : ℚ)
    ∧ (ConfidenceScorer.score config pattern momentum days).beta
      = (1 + ((config.total_files : ℚ) - (pattern.file_spread : ℚ)))
        + (1 - weighted_score (compute_factors
            (ConfidenceScorer.factor_input config pattern momentum days)))
          * min 1 (max 1 (pattern.location_count : ℚ)
              / (max 1 (pattern.location_count : ℚ) + 10))
          * max 1 (pattern.location_count : ℚ) := by
  set W := weighted_score (compute_factors
    (ConfidenceScorer.factor_input config pattern momentum days)) with hWdef
  have hW0 : 0 ≤ W := weighted_score_nonneg _
  have hW1 : W ≤ 1 := weighted_score_le_one _
  set L : ℚ := (pattern.location_count : ℚ) with hLdef
  have hL0 : 0 ≤ L := Nat.cast_nonneg _
  have hn1 : (1 : ℚ) ≤ max L 1 := le_max_right _ _
  have hden : (0 : ℚ) < max L 1 + 10 := by linarith
  have hb0 : (0 : ℚ) ≤ max L 1 / (max L 1 + 10) := by positivity
  have hblend0 : (0 : ℚ) ≤ min (max L 1 / (max L 1 + 10)) 1 :=
    le_min hb0 (by norm_num)
  have hmaxc : max (1 : ℚ) L = max L 1 := max_comm _ _
  have hminc : min (1 : ℚ) (max L 1 / (max L 1 + 10))
      = min (max L 1 / (max L 1 + 10)) 1 := min_comm _ _
  constructor
  · show (ConfidenceScorer.score config pattern momentum days).alpha = _
    rw [hmaxc, hminc]
    simp only [ConfidenceScorer.score, ConfidenceScore.from_params,
      BetaPosterior.posterior_params, factors_to_alpha_beta, ← hWdef, ← hLdef]
    rw [max_eq_left]
    exact mul_nonneg (mul_nonneg hW0 hblend0) (by linarith)
  · show (ConfidenceScorer.score config pattern momentum days).beta = _
    rw [hmaxc, hminc]
    simp only [ConfidenceScorer.score, ConfidenceScore.from_params,
      BetaPosterior.posterior_params, factors_to_alpha_beta, ← hWdef, ← hLdef]
    rw [max_eq_left]
    exact mul_nonneg (mul_nonneg (by linarith) hblend0) (by linarith)

/-- Outlier detection method label (outliers/types.rs OutlierMethod).
Modelled from the spec: the type itself is not in the sources; the
constructors are those the selector and the per-method modules use. -/
inductive OutlierMethod where
  | ZScore
  | Iqr
  | Grubbs
  | GeneralizedEsd
  | Mad
  | RuleBased
  deriving DecidableEq, Repr

/-- Significance tier of an outlier (outliers/types.rs). -/
inductive SignificanceTier where
  | Low
  | Medium
  | High
  | Critical
  deriving DecidableEq, Repr

/-- Deviation score wrapper. Modelled from the spec: the deviation score
lies in the unit interval, so the constructor clamps. -/
structure DeviationScore where
  value : ℚ
  deriving DecidableEq, Repr

def DeviationScore.new (q : ℚ) : DeviationScore :=
  ⟨clampQ q 0 1⟩

/-- One detected outlier (outliers/types.rs OutlierResult). Modelled from
the spec: index, value, test statistic, deviation score, significance
tier, method label, outlier flag. -/
structure OutlierResult where
  index : ℕ
  value : ℚ
  test_statistic : ℚ
  deviation_score : DeviationScore
  significance : SignificanceTier
  method : OutlierMethod
  is_outlier : Bool
  deriving DecidableEq, Repr

/-- Context provided to rule checks (rule_based.rs RuleContext). -/
structure RuleContext where
  mean : ℚ
  stddev : ℚ
  min : ℚ
  max : ℚ
  count : ℕ
  deriving DecidableEq, Repr

/-- Compute context from a list of values (rule_based.rs
RuleContext::from_values). The square root on f64 has no exact rational
counterpart, so it is an explicit argument; the source's folds of min and
max starting from the infinities are written as folds over the nonempty
tail, which agree on every nonempty list. -/
def RuleContext.from_values (sqrtQ : ℚ → ℚ) : List ℚ → RuleContext
  | [] => ⟨0, 0, 0, 0, 0⟩
  | v :: vs =>
    let values := v :: vs
    let n : ℚ := (values.length : ℚ)
    let mean := values.sum / n
    let variance :=
      if 1 < values.length then
        ((values.map fun x => (x - mean) ^ 2).sum) / (n - 1)
      else 0
    let stddev := if 0 ≤ variance then sqrtQ variance else 0
    ⟨mean, stddev, vs.foldl Min.min v, vs.foldl Max.max v, values.length⟩

/-- A rule for detecting outliers (rule_based.rs OutlierRule). -/
structure OutlierRule where
  id : String
  description : String
  check : ℚ → RuleContext → Bool
  significance : SignificanceTier

/-- Detect outliers using registered rules (rule_based.rs detect): for
each value, the first matching rule yields one result. -/
def rule_based_detect (sqrtQ : ℚ → ℚ) (values : List ℚ)
    (rules : List OutlierRule) : List OutlierResult :=
  if values.isEmpty || rules.isEmpty then []
  else
    let ctx := RuleContext.from_values sqrtQ values
    values.enum.filterMap fun iv =>
      match rules.find? (fun r => r.check iv.2 ctx) with
      | some r =>
          some ⟨iv.1, iv.2, 0, DeviationScore.new (1 / 2), r.significance,
            .RuleBased, true⟩
      | none => none

/-- Default rule (rule_based.rs zero_confidence_rule): zero-confidence
values are always outliers. -/
def zero_confidence_rule : OutlierRule :=
  { id := "zero_confidence"
    description := "Zero-confidence values are always outliers"
    check := fun val _ctx => decide (val ≤ 0)
    significance := .High }

/-- Rule for values more than the given number of standard deviations
from the mean (rule_based.rs extreme_deviation_rule). -/
def extreme_deviation_rule (n_stddev : ℚ) : OutlierRule :=
  { id := "extreme_deviation_" ++ toString n_stddev
    description := "Values far from the mean"
    check := fun val ctx =>
      if ctx.stddev ≤ 0 then false
      else decide (|val - ctx.mean| / ctx.stddev > n_stddev)
    significance := .Critical }

/-- Configuration of the outlier detector (outliers/types.rs
OutlierConfig). Modelled from the spec: the type is not in the sources;
the fields are the ones the selector reads. -/
structure OutlierConfig where
  min_sample_size : ℕ
  z_threshold : ℚ
  alpha : ℚ
  iqr_multiplier : ℚ
  mad_threshold : ℚ
  max_iterations : ℕ
  deriving DecidableEq, Repr

/-- Modelled from the spec: the spec pins the default minimum sample size
at 10 (below it, rule-based only); the statistical knobs are not pinned
by the spec and nothing in this development depends on their values. -/
def OutlierConfig.default : OutlierConfig :=
  { min_sample_size := 10
    z_threshold := 3
    alpha := 5 / 100
    iqr_multiplier := 3 / 2
    mad_threshold := 3
    max_iterations := 3 }

/-- The statistical detection functions of the zscore, grubbs, esd, iqr
and mad modules. Modelled from the spec: those modules are not in the
sources, so the selector is embedded over them as explicit arguments at
the signatures it calls them with. -/
structure StatDetectors where
  zscore : List ℚ → ℚ → ℕ → List OutlierResult
  grubbs : List ℚ → ℚ → List OutlierResult
  esd : List ℚ → ℕ → ℚ → List OutlierResult
  iqr : List ℚ → ℚ → List OutlierResult
  mad : List ℚ → ℚ → List OutlierResult

/-- The top-level outlier detector (selector.rs OutlierDetector). -/
structure OutlierDetector where
  config : OutlierConfig
  rules : List OutlierRule

/-- selector.rs OutlierDetector::new. -/
def OutlierDetector.new : OutlierDetector :=
  { config := OutlierConfig.default
    rules := [zero_confidence_rule] }

/-- selector.rs OutlierDetector::with_config. -/
def OutlierDetector.with_config (config : OutlierConfig) : OutlierDetector :=
  { config := config
    rules := [zero_confidence_rule] }

/-- selector.rs OutlierDetector::select_primary_method. -/
def OutlierDetector.select_primary_method (det : OutlierDetector) (n : ℕ) :
    OutlierMethod :=
  if 30 ≤ n then .ZScore
  else if 25 ≤ n then .GeneralizedEsd
  else if 10 ≤ n then .Grubbs
  else .RuleBased

/-- Merge step of selector.rs detect: append each new result whose index
is not yet present. -/
def mergeNew (acc news : List OutlierResult) : List OutlierResult :=
  news.foldl
    (fun a r => if a.any (fun x => x.index = r.index) then a else a ++ [r])
    acc

/-- selector.rs OutlierDetector::detect: primary statistical method by
sample size, IQR cross-check for 30 or more samples, MAD overlay, then
the rules, merged by index. -/
def OutlierDetector.detect (sd : StatDetectors) (sqrtQ : ℚ → ℚ)
    (det : OutlierDetector) (values : List ℚ) : List OutlierResult :=
  let n := values.length
  if n < det.config.min_sample_size then
    rule_based_detect sqrtQ values det.rules
  else
    let statistical :=
      match det.select_primary_method n with
      | .ZScore => sd.zscore values det.config.z_threshold det.config.max_iterations
      | .Grubbs => sd.grubbs values det.config.alpha
      | .GeneralizedEsd => sd.esd values (min (max (n / 5) 1) 10) det.config.alpha
      | _ => []
    let with_iqr :=
      if 30 ≤ n then mergeNew statistical (sd.iqr values det.config.iqr_multiplier)
      else statistical
    let with_mad := mergeNew with_iqr (sd.mad values det.config.mad_threshold)
    mergeNew with_mad (rule_based_detect sqrtQ values det.rules)

theorem mergeNew_preserves_index (news : List OutlierResult) :
    ∀ acc idx,
      ((∃ r ∈ acc, r.index = idx) ∨ (∃ r ∈ news, r.index = idx)) →
      ∃ r ∈ mergeNew acc news, r.index = idx := by
  induction news with
  | nil =>
    intro acc idx h
    rcases h with h | h
    · exact h
    · rcases h with ⟨r, hr, _⟩
      exact absurd hr (List.not_mem_nil r)
  | cons r t ih =>
    intro acc idx h
    have hstep : mergeNew acc (r :: t)
        = mergeNew (if acc.any (fun x => x.index = r.index) then acc
            else acc ++ [r]) t := rfl
    rw [hstep]
    apply ih
    by_cases hany : acc.any (fun x => x.index = r.index)
    · simp only [hany, if_true]
      rcases h with h | h
      · exact Or.inl h
      · rcases h with ⟨s, hs, hsi⟩
        rcases List.mem_cons.mp hs with hs | hs
        · subst hs
          rcases List.any_eq_true.mp hany with ⟨x, hx, hxi⟩
          exact Or.inl ⟨x, hx, by simpa [hsi] using of_decide_eq_true hxi⟩
        · exact Or.inr ⟨s, hs, hsi⟩
    · simp only [hany, if_false]
      rcases h with h | h
      · rcases h with ⟨s, hs, hsi⟩
        exact Or.inl ⟨s, List.mem_append_left _ hs, hsi⟩
      · rcases h with ⟨s, hs, hsi⟩
        rcases List.mem_cons.mp hs with hs | hs
        · subst hs
          exact Or.inl ⟨s, List.mem_append_right _ (List.mem_singleton.mpr rfl), hsi⟩
        · exact Or.inr ⟨s, hs, hsi⟩

/-- C5: the detector selects z-score for 30 or more samples (with IQR
additionally merged in as a cross-check), generalized ESD with outlier
cap min(10, n/5) for 25 to 29 samples, Grubbs for 10 to 24 samples, and
below the minimum sample size it runs the rule-based checks only, with
no statistical results. -/
theorem outlier_detector_selection (det : OutlierDetector) :
    (∀ n, 30 ≤ n → det.select_primary_method n = .ZScore)
    ∧ (∀ n, 25 ≤ n → n < 30 → det.select_primary_method n = .GeneralizedEsd)
    ∧ (∀ n, 10 ≤ n → n < 25 → det.select_primary_method n = .Grubbs)
    ∧ (∀ n, n < 10 → det.select_primary_method n = .RuleBased)
    ∧ (∀ sd sqrtQ values, values.length < det.config.min_sample_size →
        OutlierDetector.detect sd sqrtQ det values
          = rule_based_detect sqrtQ values det.rules)
    ∧ (∀ sd sqrtQ values,
        det.config.min_sample_size ≤ values.length →
        25 ≤ values.length → values.length < 30 →
        OutlierDetector.detect sd sqrtQ det values
          = mergeNew
              (mergeNew
                (sd.esd values (min 10 (values.length / 5)) det.config.alpha)
                (sd.mad values det.config.mad_threshold))
              (rule_based_detect sqrtQ values det.rules))
    ∧ (∀ sd sqrtQ values,
        det.config.min_sample_size ≤ values.length →
        30 ≤ values.length →
        OutlierDetector.detect sd sqrtQ det values
          = mergeNew
              (mergeNew
                (mergeNew
                  (sd.zscore values det.config.z_threshold
                    det.config.max_iterations)
                  (sd.iqr values det.config.iqr_multiplier))
                (sd.mad values det.config.mad_threshold))
              (rule_based_detect sqrtQ values det.rules)) := by
  refine ⟨?_, ?_, ?_, ?_, ?_, ?_, ?_⟩
  · intro n h
    simp [OutlierDetector.select_primary_method, h]
  · intro n h1 h2
    simp only [OutlierDetector.select_primary_method]
    rw [if_neg (by omega), if_pos (by omega)]
  · intro n h1 h2
    simp only [OutlierDetector.select_primary_method]
    rw [if_neg (by omega), if_neg (by omega), if_pos (by omega)]
  · intro n h
    simp only [OutlierDetector.select_primary_method]
    rw [if_neg (by omega), if_neg (by omega), if_neg (by omega)]
  · intro sd sqrtQ values h
    simp [OutlierDetector.detect, h]
  · intro sd sqrtQ values hmin h25 h30
    have hnotlt : ¬ values.length < det.config.min_sample_size := by omega
    have hsel : det.select_primary_method values.length = .GeneralizedEsd := by
      simp only [OutlierDetector.select_primary_method]
      rw [if_neg (by omega), if_pos (by omega)]
    have hcap : min (max (values.length / 5) 1) 10
        = min 10 (values.length / 5) := by omega
    simp only [OutlierDetector.detect, hnotlt, if_false, hsel, hcap,
      if_neg (by omega : ¬ 30 ≤ values.length)]
  · intro sd sqrtQ values hmin h30
    have hnotlt : ¬ values.length < det.config.min_sample_size := by omega
    have hsel : det.select_primary_method values.length = .ZScore := by
      simp only [OutlierDetector.select_primary_method]
      rw [if_pos (by omega)]
    simp only [OutlierDetector.detect, hnotlt, if_false, hsel,
      if_pos (by omega : 30 ≤ values.length)]

/-- Statistical detectors that report nothing; used to instantiate the
selector theorems at concrete inputs. -/
def emptyStatDetectors : StatDetectors :=
  { zscore := fun _ _ _ => []
    grubbs := fun _ _ => []
    esd := fun _ _ _ => []
    iqr := fun _ _ => []
    mad := fun _ _ => [] }

/-- Witness for C5 at a concrete input: an empty sample is below the
default minimum sample size, so detection is rule-based only. -/
theorem outlier_detector_selection_witness :
    ([] : List ℚ).length < OutlierDetector.new.config.min_sample_size
      ∧ OutlierDetector.detect emptyStatDetectors id OutlierDetector.new []
        = rule_based_detect id [] OutlierDetector.new.rules :=
  ⟨by decide,
    (outlier_detector_selection OutlierDetector.new).2.2.2.2.1
      emptyStatDetectors id [] (by decide)⟩

/-- C6 counterexample: the default detector installs exactly one rule,
and that rule's significance is High, so the default rule set does not
contain the two claimed rules (in particular no Critical
more-than-three-sigma rule). -/
theorem outlier_default_rules_counterexample :
    OutlierDetector.new.rules.length = 1
      ∧ OutlierDetector.new.rules.map (fun r => r.significance)
        = [SignificanceTier.High] :=
  ⟨rfl, rfl⟩

/-- C6 amended: the default rule set contains exactly one rule — any
value at most zero is flagged with significance High; the
more-than-N-sigma rule (significance Critical) exists as
extreme_deviation_rule but is only installed through add_rule; the
installed rules are applied to every input sequence the detector
processes, in both branches of detect. -/
theorem outlier_default_rules_amended :
    OutlierDetector.new.rules = [zero_confidence_rule]
    ∧ (∀ config, (OutlierDetector.with_config config).rules
        = [zero_confidence_rule])
    ∧ (∀ v ctx, zero_confidence_rule.check v ctx = decide (v ≤ 0))
    ∧ zero_confidence_rule.significance = .High
    ∧ (∀ t v ctx, (extreme_deviation_rule t).check v ctx
        = if ctx.stddev ≤ 0 then false
          else decide (|v - ctx.mean| / ctx.stddev > t))
    ∧ (∀ t, (extreme_deviation_rule t).significance = .Critical)
    ∧ (∀ sd sqrtQ det values idx,
        (∃ r ∈ rule_based_detect sqrtQ values det.rules, r.index = idx) →
        ∃ r ∈ OutlierDetector.detect sd sqrtQ det values, r.index = idx) := by
  refine ⟨rfl, fun _ => rfl, fun _ _ => rfl, rfl, fun _ _ _ => rfl,
    fun _ => rfl, ?_⟩
  intro sd sqrtQ det values idx h
  by_cases hlt : values.length < det.config.min_sample_size
  · simpa only [OutlierDetector.detect, hlt, if_true] using h
  · simp only [OutlierDetector.detect, hlt, if_false]
    exact mergeNew_preserves_index _ _ _ (Or.inr h)

/-- Witness for C6 amended at a concrete input: the single default rule
flags the zero value, and the detector reports it. -/
theorem outlier_default_rules_amended_witness :
    (∃ r ∈ rule_based_detect id [(0 : ℚ)] OutlierDetector.new.rules,
        r.index = 0)
      ∧ ∃ r ∈ OutlierDetector.detect emptyStatDetectors id
          OutlierDetector.new [(0 : ℚ)], r.index = 0 := by
  have hmem : ∃ r ∈ rule_based_detect id [(0 : ℚ)] OutlierDetector.new.rules,
      r.index = 0 := by
    refine ⟨⟨0, 0, 0, DeviationScore.new (1 / 2), .High, .RuleBased, true⟩,
      ?_, rfl⟩
    simp [rule_based_detect, OutlierDetector.new, RuleContext.from_values,
      zero_confidence_rule, List.find?, List.enum]
  exact ⟨hmem,
    outlier_default_rules_amended.2.2.2.2.2.2 emptyStatDetectors id
      OutlierDetector.new [(0 : ℚ)] 0 hmem⟩

/-- Convention categories (learning/types.rs ConventionCategory). -/
inductive ConventionCategory where
  | Universal
  | ProjectSpecific
  | Emerging
  | Legacy
  | Contested
  deriving DecidableEq, Repr

/-- Scope of a convention (learning/types.rs ConventionScope). -/
inductive ConventionScope where
  | Project
  | Directory (d : String)
  | Package (p : String)
  deriving DecidableEq, Repr

/-- Promotion status lifecycle (learning/types.rs PromotionStatus). -/
inductive PromotionStatus where
  | Discovered
  | Approved
  | Rejected
  | Expired
  deriving DecidableEq, Repr

/-- A discovered convention (learning/types.rs Convention). -/
structure Convention where
  id : String
  pattern_id : String
  category : ConventionCategory
  scope : ConventionScope
  confidence_score : ConfidenceScore
  dominance_ratio : ℚ
  discovery_date : ℕ
  last_seen : ℕ
  promotion_status : PromotionStatus
  deriving DecidableEq, Repr

/-- Configuration for the learning system (learning/types.rs
LearningConfig). -/
structure LearningConfig where
  min_occurrences : ℕ
  dominance_threshold : ℚ
  min_files : ℕ
  universal_spread_threshold : ℚ
  contested_threshold : ℚ
  expiry_days : ℕ
  relearn_threshold : ℚ
  deriving DecidableEq, Repr

/-- learning/types.rs LearningConfig::default. -/
def LearningConfig.default : LearningConfig :=
  { min_occurrences := 3
    dominance_threshold := 60 / 100
    min_files := 2
    universal_spread_threshold := 80 / 100
    contested_threshold := 15 / 100
    expiry_days := 90
    relearn_threshold := 10 / 100 }

/-- The category group a pattern falls into: discovery.rs groups the
input patterns by category name, preserving input order. -/
def categoryGroup (patterns : List AggregatedPattern) (cat : String) :
    List AggregatedPattern :=
  patterns.filter fun p => p.category = cat

/-- Total occurrence count of a category group (the denominator of the
dominance and share ratios in discovery.rs). -/
def groupTotal (patterns : List AggregatedPattern) (cat : String) : ℕ :=
  ((categoryGroup patterns cat).map fun p => p.location_count).sum

/-- discovery.rs ConventionDiscoverer::check_contested: some other
pattern of the same category group sits within the contested threshold
of this pattern's occurrence share. -/
def check_contested (config : LearningConfig)
    (patterns : List AggregatedPattern) (pattern : AggregatedPattern) :
    Bool :=
  let group := categoryGroup patterns pattern.category
  let total : ℕ := (group.map fun p => p.location_count).sum
  if total = 0 then false
  else
    let my_ratio : ℚ := (pattern.location_count : ℚ) / (total : ℚ)
    group.any fun other =>
      other.pattern_id != pattern.pattern_id
        && decide (|my_ratio - (other.location_count : ℚ) / (total : ℚ)|
            ≤ config.contested_threshold)

/-- discovery.rs ConventionDiscoverer::classify_category. -/
def classify_category (config : LearningConfig)
    (patterns : List AggregatedPattern) (spread_ratio : ℚ)
    (score : ConfidenceScore) (pattern : AggregatedPattern) :
    ConventionCategory :=
  if check_contested config patterns pattern then .Contested
  else if config.universal_spread_threshold ≤ spread_ratio
      ∧ score.tier = .Established then .Universal
  else if score.momentum = .Rising then .Emerging
  else if score.momentum = .Falling then .Legacy
  else .ProjectSpecific

/-- Last-binding lookup into the score list, matching the HashMap that
discovery.rs collects from it (later duplicates overwrite). -/
def lookupScore (scores : List (String × ConfidenceScore)) (id : String) :
    Option ConfidenceScore :=
  scores.foldl (fun acc kv => if kv.1 = id then some kv.2 else acc) none

/-- The dominance ratio computed in discovery.rs discover: the pattern's
share of occurrences within its category group, zero when the group is
empty. -/
def dominanceOf (patterns : List AggregatedPattern)
    (pattern : AggregatedPattern) : ℚ :=
  let category_total := groupTotal patterns pattern.category
  if 0 < category_total then
    (pattern.location_count : ℚ) / (category_total : ℚ)
  else 0

/-- The spread ratio computed in discovery.rs discover: file spread over
total files, zero when there are no files. -/
def spreadRatioOf (total_files : ℕ) (pattern : AggregatedPattern) : ℚ :=
  if 0 < total_files then (pattern.file_spread : ℚ) / (total_files : ℚ)
  else 0

/-- Body of the per-pattern loop of discovery.rs
ConventionDiscoverer::discover. -/
def discoverOne (config : LearningConfig)
    (patterns : List AggregatedPattern)
    (scores : List (String × ConfidenceScore)) (total_files : ℕ) (now : ℕ)
    (pattern : AggregatedPattern) : Option Convention :=
  if pattern.location_count < config.min_occurrences then none
  else if pattern.file_spread < config.min_files then none
  else
    let dominance := dominanceOf patterns pattern
    if dominance < config.dominance_threshold
        ∧ ¬ check_contested config patterns pattern then none
    else
      let score :=
        (lookupScore scores pattern.pattern_id).getD
          ConfidenceScore.uniform_prior
      let spread_ratio := spreadRatioOf total_files pattern
      some
        { id := "conv_" ++ pattern.pattern_id
          pattern_id := pattern.pattern_id
          category := classify_category config patterns spread_ratio score
            pattern
          scope := .Project
          confidence_score := score
          dominance_ratio := dominance
          discovery_date := now
          last_seen := now
          promotion_status := .Discovered }

/-- discovery.rs ConventionDiscoverer::discover: one pass over the
patterns, emitting a convention for each qualifying pattern. -/
def ConventionDiscoverer.discover (config : LearningConfig)
    (patterns : List AggregatedPattern)
    (scores : List (String × ConfidenceScore)) (total_files : ℕ)
    (now : ℕ) : List Convention :=
  patterns.filterMap (discoverOne config patterns scores total_files now)

theorem check_contested_spec (config : LearningConfig)
    (patterns : List AggregatedPattern) (p : AggregatedPattern)
    (h : check_contested config patterns p = true) :
    ∃ q ∈ categoryGroup patterns p.category,
      q.pattern_id ≠ p.pattern_id
      ∧ |(p.location_count : ℚ) / (groupTotal patterns p.category : ℚ)
          - (q.location_count : ℚ) / (groupTotal patterns p.category : ℚ)|
        ≤ config.contested_threshold := by
  rw [check_contested] at h
  dsimp only at h
  by_cases htot :
      ((categoryGroup patterns p.category).map fun q => q.location_count).sum
        = 0
  · rw [if_pos htot] at h
    cases h
  · rw [if_neg htot] at h
    obtain ⟨q, hq, hcond⟩ := List.any_eq_true.mp h
    rw [Bool.and_eq_true] at hcond
    obtain ⟨hne, hdiff⟩ := hcond
    exact ⟨q, hq, by simpa using bne_iff_ne.mp hne,
      by simpa [groupTotal] using of_decide_eq_true hdiff⟩

/-- C4: every discovered convention (default thresholds) comes from a
pattern with at least 3 occurrences and spread at least 2; a dominance
below 0.60 forces the Contested category; Universal conventions have
spread ratio at least 0.80 and Established tier; Contested conventions
have a same-category peer within 0.15 of their occurrence share. -/
theorem convention_discovery_invariants
    (patterns : List AggregatedPattern)
    (scores : List (String × ConfidenceScore)) (total_files now : ℕ) :
    ∀ c ∈ ConventionDiscoverer.discover LearningConfig.default patterns
        scores total_files now,
      ∃ p ∈ patterns,
        c.pattern_id = p.pattern_id
        ∧ 3 ≤ p.location_count
        ∧ 2 ≤ p.file_spread
        ∧ (dominanceOf patterns p < 60 / 100 → c.category = .Contested)
        ∧ (c.category = .Universal →
            80 / 100 ≤ spreadRatioOf total_files p
              ∧ c.confidence_score.tier = .Established)
        ∧ (c.category = .Contested →
            ∃ q ∈ patterns, q.category = p.category
              ∧ q.pattern_id ≠ p.pattern_id
              ∧ |(p.location_count : ℚ)
                    / (groupTotal patterns p.category : ℚ)
                  - (q.location_count : ℚ)
                    / (groupTotal patterns p.category : ℚ)|
                ≤ 15 / 100) := by
  intro c hc
  obtain ⟨p, hp, hsome⟩ := List.mem_filterMap.mp hc
  refine ⟨p, hp, ?_⟩
  simp only [discoverOne] at hsome
  split_ifs at hsome with h1 h2 h3
  have hceq := (Option.some.inj hsome).symm
  subst hceq
  have hocc : 3 ≤ p.location_count := by
    simpa [LearningConfig.default] using Nat.le_of_not_lt h1
  have hspr : 2 ≤ p.file_spread := by
    simpa [LearningConfig.default] using Nat.le_of_not_lt h2
  have hcontested_of_lowdom :
      dominanceOf patterns p < 60 / 100 →
      check_contested LearningConfig.default patterns p = true := by
    intro hdom
    by_contra hK
    exact h3 ⟨by simpa [LearningConfig.default] using hdom,
      by simpa using hK⟩
  refine ⟨rfl, hocc, hspr, ?_, ?_, ?_⟩
  · intro hdom
    show classify_category LearningConfig.default patterns _ _ p
        = ConventionCategory.Contested
    simp [classify_category, hcontested_of_lowdom hdom]
  · intro hcat
    have hcat1 : classify_category LearningConfig.default patterns
        (spreadRatioOf total_files p)
        ((lookupScore scores p.pattern_id).getD ConfidenceScore.uniform_prior)
        p = ConventionCategory.Universal := hcat
    simp only [classify_category] at hcat1
    split_ifs at hcat1 with hK hU hE hL
    exact ⟨by simpa [LearningConfig.default] using hU.1, hU.2⟩
  · intro hcat
    have hcat1 : classify_category LearningConfig.default patterns
        (spreadRatioOf total_files p)
        ((lookupScore scores p.pattern_id).getD ConfidenceScore.uniform_prior)
        p = ConventionCategory.Contested := hcat
    have hK : check_contested LearningConfig.default patterns p = true := by
      by_contra hK
      rw [Bool.not_eq_true] at hK
      rw [classify_category, hK] at hcat1
      simp only [Bool.false_eq_true, if_false] at hcat1
      split_ifs at hcat1
    obtain ⟨q, hq, hne, hdiff⟩ :=
      check_contested_spec LearningConfig.default patterns p hK
    obtain ⟨hqmem, hqcat⟩ := List.mem_filter.mp hq
    exact ⟨q, hqmem, by simpa using hqcat, hne,
      by simpa [LearningConfig.default] using hdiff⟩

/-- A concrete aggregated pattern used to witness the discovery
invariants. -/
def p0w : AggregatedPattern :=
  { pattern_id := "p0"
    category := "structural"
    location_count := 80
    outlier_count := 0
    file_spread := 10
    confidence_mean := 9 / 10
    confidence_stddev := 1 / 20 }

/-- The convention the discoverer produces for p0w alone. -/
def c0w : Convention :=
  { id := "conv_p0"
    pattern_id := "p0"
    category := .ProjectSpecific
    scope := .Project
    confidence_score := ConfidenceScore.uniform_prior
    dominance_ratio := 1
    discovery_date := 1000
    last_seen := 1000
    promotion_status := .Discovered }

/-- Witness for C4 at a concrete input: the single-pattern project yields
one convention and the invariants hold for it. -/
theorem convention_discovery_invariants_witness :
    (c0w ∈ ConventionDiscoverer.discover LearningConfig.default [p0w] []
        100 1000)
      ∧ ∃ p ∈ [p0w],
          c0w.pattern_id = p.pattern_id
          ∧ 3 ≤ p.location_count
          ∧ 2 ≤ p.file_spread
          ∧ (dominanceOf [p0w] p < 60 / 100 → c0w.category = .Contested)
          ∧ (c0w.category = .Universal →
              80 / 100 ≤ spreadRatioOf 100 p
                ∧ c0w.confidence_score.tier = .Established)
          ∧ (c0w.category = .Contested →
              ∃ q ∈ [p0w], q.category = p.category
                ∧ q.pattern_id ≠ p.pattern_id
                ∧ |(p.location_count : ℚ) / (groupTotal [p0w] p.category : ℚ)
                    - (q.location_count : ℚ)
                      / (groupTotal [p0w] p.category : ℚ)|
                  ≤ 15 / 100) := by
  have hlist : ConventionDiscoverer.discover LearningConfig.default [p0w]
      [] 100 1000 = [c0w] := by
    unfold ConventionDiscoverer.discover discoverOne
    norm_num [dominanceOf, groupTotal, categoryGroup, spreadRatioOf,
      check_contested, classify_category, lookupScore, LearningConfig.default,
      p0w, c0w, List.filterMap_cons, List.filterMap_nil, List.filter,
      ConfidenceScore.uniform_prior, ConfidenceScore.from_params,
      BetaPosterior.posterior_mean, ConfidenceTier.from_posterior_mean]
    exact ⟨rfl, rfl⟩
  have hmem : c0w ∈ ConventionDiscoverer.discover LearningConfig.default
      [p0w] [] 100 1000 := by
    rw [hlist]
    exact List.mem_singleton.mpr rfl
  exact ⟨hmem,
    convention_discovery_invariants [p0w] [] 100 1000 c0w hmem⟩

/-- Substring test on character lists: Rust str::contains. -/
def listContainsSub (needle : List Char) : List Char → Bool
  | [] => needle.isEmpty
  | h :: t => needle.isPrefixOf (h :: t) || listContainsSub needle t

/-- Rust str::contains on strings. -/
def strContainsSub (s sub : String) : Bool :=
  listContainsSub sub.data s.data

/-- Rust str::to_lowercase (ASCII-level model). -/
def strLower (s : String) : String :=
  ⟨s.data.map Char.toLower⟩

/-- An import specifier (parsers/types.rs). Modelled from the spec: the
parser types module is not in the sources; the fields the resolver reads
are the imported name and its optional alias. -/
structure ImportSpecifier where
  name : String
  «alias» : Option String
  deriving DecidableEq, Repr

/-- An import record (parsers/types.rs ImportInfo). Modelled from the
spec: source module text plus its specifiers. -/
structure ImportInfo where
  source : String
  specifiers : List ImportSpecifier
  deriving DecidableEq, Repr

/-- A call-site descriptor (parsers/types.rs CallSite). Modelled from the
spec: callee name, optional receiver text, line, column, argument count,
await flag. -/
structure CallSite where
  callee_name : String
  receiver : Option String
  line : ℕ
  column : ℕ
  argument_count : ℕ
  is_await : Bool
  deriving DecidableEq, Repr

/-- A parameter descriptor (parsers/types.rs). Modelled from the spec:
only the name is read by the embedded code. -/
structure ParamInfo where
  name : String
  deriving DecidableEq, Repr

/-- A decorator descriptor (parsers/types.rs). Modelled from the spec:
only the name is read by the embedded code. -/
structure Decorator where
  name : String
  deriving DecidableEq, Repr

/-- A function descriptor (parsers/types.rs FunctionInfo). Modelled from
the spec: the fields read by the call-graph builder, the entry-point
marker and the taint engine are kept. -/
structure FunctionInfo where
  name : String
  qualified_name : Option String
  parameters : List ParamInfo
  decorators : List Decorator
  line : ℕ
  end_line : ℕ
  is_exported : Bool
  signature_hash : ℕ
  body_hash : ℕ
  deriving DecidableEq, Repr

/-- A per-file structural record (parsers/types.rs ParseResult).
Modelled from the spec: file path, language tag (carried as its name
string), functions, call sites and imports; the remaining descriptor
lists are not read by the embedded components. -/
structure ParseResult where
  file : String
  language : String
  functions : List FunctionInfo
  call_sites : List CallSite
  imports : List ImportInfo
  deriving DecidableEq, Repr

/-- Resolution strategy label (call_graph/types.rs Resolution). Modelled
from the spec: the five ordered strategies. -/
inductive Resolution where
  | SameFile
  | MethodCall
  | ImportBased
  | ExportBased
  | Fuzzy
  deriving DecidableEq, Repr

/-- Modelled from the spec: the default confidence of each strategy. -/
def Resolution.default_confidence : Resolution → ℚ
  | .SameFile => 95 / 100
  | .MethodCall => 90 / 100
  | .ImportBased => 75 / 100
  | .ExportBased => 60 / 100
  | .Fuzzy => 40 / 100

/-- The node key used throughout the call graph: file::name. -/
def buildKey (file name : String) : String :=
  file ++ "::" ++ name

/-- The name index of builder.rs: every function key with the given bare
name, in file-then-function iteration order. -/
def nameIndex (prs : List ParseResult) (name : String) : List String :=
  prs.flatMap fun pr =>
    pr.functions.filterMap fun f =>
      if f.name = name then some (buildKey pr.file f.name) else none

/-- The qualified-name index of builder.rs: last insertion wins, as in
the HashMap the builder fills. -/
def qualifiedIndex (prs : List ParseResult) (qn : String) : Option String :=
  (prs.flatMap fun pr =>
    pr.functions.filterMap fun f =>
      match f.qualified_name with
      | some q => if q = qn then some (buildKey pr.file f.name) else none
      | none => none).getLast?

/-- The export index of builder.rs: keys of exported functions with the
given name. -/
def exportIndex (prs : List ParseResult) (name : String) : List String :=
  prs.flatMap fun pr =>
    pr.functions.filterMap fun f =>
      if f.name = name ∧ f.is_exported then some (buildKey pr.file f.name)
      else none

/-- resolution.rs resolve_same_file. An absent map entry behaves as the
empty key list. -/
def resolve_same_file (call_site : CallSite) (caller_file : String)
    (name_index : String → List String) : Option String :=
  let keys := name_index call_site.callee_name
  let same_file_key := buildKey caller_file call_site.callee_name
  if keys.contains same_file_key then some same_file_key else none

/-- resolution.rs resolve_method_call. -/
def resolve_method_call (call_site : CallSite)
    (qualified_index : String → Option String) : Option String :=
  match call_site.receiver with
  | some receiver => qualified_index (receiver ++ "." ++ call_site.callee_name)
  | none => none

/-- Inner step of resolution.rs resolve_import_based for one specifier:
when the effective (aliased) name is the callee and the bare name has
known keys, prefer a key containing the import source, else the first. -/
def importCandidate (imp : ImportInfo) (sp : ImportSpecifier)
    (name_index : String → List String) (callee_name : String) :
    Option String :=
  if (sp.«alias».getD sp.name) = callee_name then
    match name_index sp.name with
    | [] => none
    | k :: ks =>
        some ((((k :: ks).find? fun key => strContainsSub key imp.source)).getD k)
  else none

/-- resolution.rs resolve_import_based. -/
def resolve_import_based (call_site : CallSite) (imports : List ImportInfo)
    (name_index : String → List String) : Option String :=
  imports.findSome? fun imp =>
    imp.specifiers.findSome? fun sp =>
      importCandidate imp sp name_index call_site.callee_name

/-- resolution.rs resolve_export_based: succeeds only on exactly one
exported definition. -/
def resolve_export_based (call_site : CallSite)
    (export_index : String → List String) : Option String :=
  match export_index call_site.callee_name with
  | [k] => some k
  | _ => none

/-- resolution.rs resolve_fuzzy: succeeds only on exactly one global
definition. -/
def resolve_fuzzy (call_site : CallSite)
    (name_index : String → List String) : Option String :=
  match name_index call_site.callee_name with
  | [k] => some k
  | _ => none

/-- resolution.rs resolve_call: five strategies in fixed order, first
success wins. -/
def resolve_call (call_site : CallSite) (caller_file : String)
    (imports : List ImportInfo) (name_index : String → List String)
    (qualified_index : String → Option String)
    (export_index : String → List String) : Option (String × Resolution) :=
  match resolve_same_file call_site caller_file name_index with
  | some result => some (result, .SameFile)
  | none =>
    match resolve_method_call call_site qualified_index with
    | some result => some (result, .MethodCall)
    | none =>
      match resolve_import_based call_site imports name_index with
      | some result => some (result, .ImportBased)
      | none =>
        match resolve_export_based call_site export_index with
        | some result => some (result, .ExportBased)
        | none =>
          match resolve_fuzzy call_site name_index with
          | some result => some (result, .Fuzzy)
          | none => none

theorem mem_nameIndex (prs : List ParseResult) (file name : String)
    (h : ∃ pr ∈ prs, pr.file = file ∧ ∃ f ∈ pr.functions, f.name = name) :
    buildKey file name ∈ nameIndex prs name := by
  obtain ⟨pr, hpr, hfile, f, hf, hname⟩ := h
  unfold nameIndex
  refine List.mem_flatMap.mpr ⟨pr, hpr, ?_⟩
  refine List.mem_filterMap.mpr ⟨f, hf, ?_⟩
  rw [if_pos hname, hname, hfile]

theorem resolve_export_based_unique (cs : CallSite)
    (ei : String → List String) (k : String)
    (h : resolve_export_based cs ei = some k) : ei cs.callee_name = [k] := by
  unfold resolve_export_based at h
  rcases hl : ei cs.callee_name with _ | ⟨a, _ | ⟨b, t⟩⟩ <;> rw [hl] at h
  · exact Option.noConfusion h
  · rw [Option.some.inj h]
  · exact Option.noConfusion h

theorem resolve_fuzzy_unique (cs : CallSite)
    (ni : String → List String) (k : String)
    (h : resolve_fuzzy cs ni = some k) : ni cs.callee_name = [k] := by
  unfold resolve_fuzzy at h
  rcases hl : ni cs.callee_name with _ | ⟨a, _ | ⟨b, t⟩⟩ <;> rw [hl] at h
  · exact Option.noConfusion h
  · rw [Option.some.inj h]
  · exact Option.noConfusion h

theorem resolve_call_inv (cs : CallSite) (caller_file : String)
    (imports : List ImportInfo) (ni : String → List String)
    (qi : String → Option String) (ei : String → List String)
    (k : String) (res : Resolution)
    (h : resolve_call cs caller_file imports ni qi ei = some (k, res)) :
    (res = .SameFile ∧ resolve_same_file cs caller_file ni = some k)
    ∨ (res = .MethodCall ∧ resolve_same_file cs caller_file ni = none
        ∧ resolve_method_call cs qi = some k)
    ∨ (res = .ImportBased ∧ resolve_same_file cs caller_file ni = none
        ∧ resolve_method_call cs qi = none
        ∧ resolve_import_based cs imports ni = some k)
    ∨ (res = .ExportBased ∧ resolve_same_file cs caller_file ni = none
        ∧ resolve_method_call cs qi = none
        ∧ resolve_import_based cs imports ni = none
        ∧ resolve_export_based cs ei = some k)
    ∨ (res = .Fuzzy ∧ resolve_same_file cs caller_file ni = none
        ∧ resolve_method_call cs qi = none
        ∧ resolve_import_based cs imports ni = none
        ∧ resolve_export_based cs ei = none
        ∧ resolve_fuzzy cs ni = some k) := by
  unfold resolve_call at h
  cases h1 : resolve_same_file cs caller_file ni with
  | some r =>
    rw [h1] at h
    obtain ⟨hk, hres⟩ := Prod.mk.injEq .. ▸ Option.some.inj h
    exact Or.inl ⟨hres.symm, by rw [hk]⟩
  | none =>
  rw [h1] at h
  cases h2 : resolve_method_call cs qi with
  | some r =>
    rw [h2] at h
    obtain ⟨hk, hres⟩ := Prod.mk.injEq .. ▸ Option.some.inj h
    exact Or.inr (Or.inl ⟨hres.symm, rfl, by rw [hk]⟩)
  | none =>
  rw [h2] at h
  cases h3 : resolve_import_based cs imports ni with
  | some r =>
    rw [h3] at h
    obtain ⟨hk, hres⟩ := Prod.mk.injEq .. ▸ Option.some.inj h
    exact Or.inr (Or.inr (Or.inl ⟨hres.symm, rfl, rfl, by rw [hk]⟩))
  | none =>
  rw [h3] at h
  cases h4 : resolve_export_based cs ei with
  | some r =>
    rw [h4] at h
    obtain ⟨hk, hres⟩ := Prod.mk.injEq .. ▸ Option.some.inj h
    exact Or.inr (Or.inr (Or.inr (Or.inl ⟨hres.symm, rfl, rfl, rfl, by rw [hk]⟩)))
  | none =>
  rw [h4] at h
  cases h5 : resolve_fuzzy cs ni with
  | some r =>
    rw [h5] at h
    obtain ⟨hk, hres⟩ := Prod.mk.injEq .. ▸ Option.some.inj h
    exact Or.inr (Or.inr (Or.inr (Or.inr
      ⟨hres.symm, rfl, rfl, rfl, rfl, by rw [hk]⟩)))
  | none =>
    rw [h5] at h
    exact Option.noConfusion h

/-- C2: same-file resolution wins whenever the caller's file defines the
callee name (so no cross-file edge is chosen in that case); the five
strategies run in the fixed order SameFile, MethodCall, ImportBased,
ExportBased, Fuzzy with the first success returned; ExportBased succeeds
only when the callee name has exactly one exported definition and Fuzzy
only when it has exactly one definition globally. -/
theorem resolve_call_fixed_order (prs : List ParseResult) (cs : CallSite)
    (caller_file : String) (imports : List ImportInfo) :
    ((∃ pr ∈ prs, pr.file = caller_file ∧ ∃ f ∈ pr.functions,
        f.name = cs.callee_name) →
      resolve_call cs caller_file imports (nameIndex prs)
          (qualifiedIndex prs) (exportIndex prs)
        = some (buildKey caller_file cs.callee_name, .SameFile))
    ∧ (∀ k res,
        resolve_call cs caller_file imports (nameIndex prs)
            (qualifiedIndex prs) (exportIndex prs) = some (k, res) →
        (res = .SameFile ∨
          resolve_same_file cs caller_file (nameIndex prs) = none)
        ∧ (res = .ExportBased → exportIndex prs cs.callee_name = [k]
            ∧ resolve_same_file cs caller_file (nameIndex prs) = none
            ∧ resolve_method_call cs (qualifiedIndex prs) = none
            ∧ resolve_import_based cs imports (nameIndex prs) = none)
        ∧ (res = .Fuzzy → nameIndex prs cs.callee_name = [k]
            ∧ resolve_same_file cs caller_file (nameIndex prs) = none
            ∧ resolve_method_call cs (qualifiedIndex prs) = none
            ∧ resolve_import_based cs imports (nameIndex prs) = none
            ∧ resolve_export_based cs (exportIndex prs) = none)) := by
  constructor
  · intro h
    have hk : resolve_same_file cs caller_file (nameIndex prs)
        = some (buildKey caller_file cs.callee_name) := by
      unfold resolve_same_file
      rw [if_pos]
      exact List.elem_iff.mpr (mem_nameIndex prs caller_file cs.callee_name h)
    unfold resolve_call
    rw [hk]
  · intro k res h
    rcases resolve_call_inv cs caller_file imports (nameIndex prs)
        (qualifiedIndex prs) (exportIndex prs) k res h with
      ⟨hres, _⟩ | ⟨hres, hn, _⟩ | ⟨hres, hn, _, _⟩
        | ⟨hres, hn, hm, hi, he⟩ | ⟨hres, hn, hm, hi, he, hf⟩
    · exact ⟨Or.inl hres, by simp [hres], by simp [hres]⟩
    · exact ⟨Or.inr hn, by simp [hres], by simp [hres]⟩
    · exact ⟨Or.inr hn, by simp [hres], by simp [hres]⟩
    · refine ⟨Or.inr hn, fun _ => ?_, by simp [hres]⟩
      exact ⟨resolve_export_based_unique cs (exportIndex prs) k he, hn, hm, hi⟩
    · refine ⟨Or.inr hn, by simp [hres], fun _ => ?_⟩
      exact ⟨resolve_fuzzy_unique cs (nameIndex prs) k hf, hn, hm, hi, he⟩

/-- A function named foo, used by the resolution witness. -/
def fooW : FunctionInfo :=
  { name := "foo"
    qualified_name := none
    parameters := []
    decorators := []
    line := 1
    end_line := 2
    is_exported := false
    signature_hash := 0
    body_hash := 0 }

/-- File a.py defining foo. -/
def aPyW : ParseResult :=
  { file := "a.py"
    language := "python"
    functions := [fooW]
    call_sites := []
    imports := [] }

/-- File b.py also defining foo. -/
def bPyW : ParseResult :=
  { file := "b.py"
    language := "python"
    functions := [fooW]
    call_sites := []
    imports := [] }

/-- A call site invoking foo. -/
def csFooW : CallSite :=
  { callee_name := "foo"
    receiver := none
    line := 1
    column := 0
    argument_count := 0
    is_await := false }

/-- Witness for C2 at a concrete input: both a.py and b.py define foo,
and a call in a.py resolves to a.py::foo as SameFile. -/
theorem resolve_call_fixed_order_witness :
    resolve_call csFooW "a.py" [] (nameIndex [aPyW, bPyW])
        (qualifiedIndex [aPyW, bPyW]) (exportIndex [aPyW, bPyW])
      = some (buildKey "a.py" "foo", .SameFile) :=
  (resolve_call_fixed_order [aPyW, bPyW] csFooW "a.py" []).1
    ⟨aPyW, by simp, rfl, fooW, by simp [aPyW], rfl⟩

/-- A call-graph node (call_graph/types.rs FunctionNode). Modelled from
the spec: a function descriptor augmented with the entry-point flag,
keyed by file::name. -/
structure FunctionNode where
  file : String
  name : String
  qualified_name : Option String
  language : String
  line : ℕ
  end_line : ℕ
  is_entry_point : Bool
  is_exported : Bool
  signature_hash : ℕ
  body_hash : ℕ
  deriving DecidableEq, Repr

/-- A call edge payload (call_graph/types.rs CallEdge). -/
structure CallEdge where
  resolution : Resolution
  confidence : ℚ
  call_site_line : ℕ
  deriving DecidableEq, Repr

/-- The key of a node. -/
def FunctionNode.key (n : FunctionNode) : String :=
  buildKey n.file n.name

/-- The call graph (call_graph/types.rs CallGraph). Modelled from the
spec: a node table keyed by file::name (at most one node per key) and a
list of directed edges between node keys. -/
structure CallGraph where
  nodes : List FunctionNode
  edges : List (String × String × CallEdge)
  deriving DecidableEq, Repr

/-- Modelled from the spec: the empty graph. -/
def CallGraph.new : CallGraph :=
  { nodes := [], edges := [] }

/-- Modelled from the spec: adding a function keeps at most one node per
file::name key, replacing any previous node with the same key. -/
def CallGraph.add_function (g : CallGraph) (n : FunctionNode) : CallGraph :=
  if g.nodes.any fun m => m.key == n.key then
    { g with nodes := g.nodes.map fun m => if m.key == n.key then n else m }
  else
    { g with nodes := g.nodes ++ [n] }

/-- Modelled from the spec: node lookup by key. -/
def CallGraph.get_node (g : CallGraph) (key : String) : Option FunctionNode :=
  g.nodes.find? fun n => n.key == key

/-- Modelled from the spec: append a directed edge between two node
keys. -/
def CallGraph.add_edge (g : CallGraph) (caller callee : String)
    (e : CallEdge) : CallGraph :=
  { g with edges := g.edges ++ [(caller, callee, e)] }

/-- Modelled from the spec: removing a file drops its nodes and every
edge one of whose endpoints was a node of that file. -/
def CallGraph.remove_file (g : CallGraph) (path : String) : CallGraph :=
  let removedKeys :=
    (g.nodes.filter fun n => n.file == path).map FunctionNode.key
  { nodes := g.nodes.filter fun n => ¬ n.file = path
    edges := g.edges.filter fun e =>
      ¬ (removedKeys.contains e.1 || removedKeys.contains e.2.1) }

/-- Per-node entry-point heuristic (traversal.rs is_entry_point):
exported, main-file main-like names, test-prefixed names, CLI names. -/
def is_entry_point_heuristic (node : FunctionNode) : Bool :=
  node.is_exported
  || ((strContainsSub (strLower node.file) "main."
        || strContainsSub (strLower node.file) "index."
        || strContainsSub (strLower node.file) "app."
        || strContainsSub (strLower node.file) "server.")
      && ["main", "run", "start", "init", "bootstrap"].contains node.name)
  || (let name_lower := strLower node.name
      name_lower.startsWith "test_" || name_lower.startsWith "test"
        || name_lower.startsWith "it_" || name_lower.startsWith "spec_")
  || ["main", "cli", "run_cli", "parse_args"].contains node.name

/-- Decorator names that mark route handlers (traversal.rs
mark_entry_points). -/
def isRouteDecorator (dec : Decorator) : Bool :=
  let dec_lower := strLower dec.name
  strContainsSub dec_lower "route" || strContainsSub dec_lower "get"
    || strContainsSub dec_lower "post" || strContainsSub dec_lower "put"
    || strContainsSub dec_lower "delete" || strContainsSub dec_lower "patch"
    || strContainsSub dec_lower "controller" || strContainsSub dec_lower "api"
    || strContainsSub dec_lower "endpoint"

/-- traversal.rs mark_entry_points: set the entry flag on nodes matching
the heuristic or carrying a route decorator. -/
def mark_entry_points (g : CallGraph) (prs : List ParseResult) : CallGraph :=
  let route_handlers : List String :=
    prs.flatMap fun pr =>
      pr.functions.filterMap fun f =>
        if f.decorators.any isRouteDecorator then
          some (buildKey pr.file f.name)
        else none
  { g with
    nodes := g.nodes.map fun n =>
      if is_entry_point_heuristic n || route_handlers.contains n.key then
        { n with is_entry_point := true }
      else n }

/-- builder.rs CallGraphBuilder::build, Phase 1 and Phase 2 plus entry
marking. The build statistics (counts, timing) are not modelled; the
returned graph is. -/
def CallGraphBuilder.build (prs : List ParseResult) : CallGraph :=
  let all_nodes : List FunctionNode :=
    prs.flatMap fun pr =>
      pr.functions.map fun f =>
        { file := pr.file
          name := f.name
          qualified_name := f.qualified_name
          language := pr.language
          line := f.line
          end_line := f.end_line
          is_entry_point := false
          is_exported := f.is_exported
          signature_hash := f.signature_hash
          body_hash := f.body_hash }
  let g0 := all_nodes.foldl CallGraph.add_function CallGraph.new
  let call_entries : List (String × CallSite × ParseResult) :=
    prs.flatMap fun pr =>
      pr.functions.flatMap fun func =>
        (pr.call_sites.filter fun cs =>
          func.line ≤ cs.line && cs.line ≤ func.end_line).map fun cs =>
            (buildKey pr.file func.name, cs, pr)
  let g1 := call_entries.foldl
    (fun g ent =>
      match g.get_node ent.1 with
      | none => g
      | some _ =>
        match resolve_call ent.2.1 ent.2.2.file ent.2.2.imports
            (nameIndex prs) (qualifiedIndex prs) (exportIndex prs) with
        | none => g
        | some (callee_key, resolution) =>
          match g.get_node callee_key with
          | none => g
          | some _ =>
            g.add_edge ent.1 callee_key
              ⟨resolution, resolution.default_confidence, ent.2.1.line⟩)
    g0
  mark_entry_points g1 prs

/-- incremental.rs IncrementalCallGraph::update: drop removed and
modified files from the held graph, then rebuild from all current parse
results; the rebuilt graph replaces the held one. -/
def IncrementalCallGraph.update (g : CallGraph) (_added : List ParseResult)
    (modified : List ParseResult) (removed : List String)
    (all_results : List ParseResult) : CallGraph :=
  let _cleared :=
    modified.foldl (fun acc pr => acc.remove_file pr.file)
      (removed.foldl CallGraph.remove_file g)
  CallGraphBuilder.build all_results

/-- C8: the incremental update over any initial graph and any
added/modified/removed partition ends in exactly the graph a single full
build over the full current record set produces: same node set keyed by
file::name and same edge set. -/
theorem incremental_update_equals_full_build (g : CallGraph)
    (added modified : List ParseResult) (removed : List String)
    (all_results : List ParseResult) :
    (IncrementalCallGraph.update g added modified removed all_results).nodes
      = (CallGraphBuilder.build all_results).nodes
    ∧ (IncrementalCallGraph.update g added modified removed
        all_results).edges
      = (CallGraphBuilder.build all_results).edges :=
  ⟨rfl, rfl⟩

/-- Semantics of one INSERT OR REPLACE execution: the conflicting row (if
any) is deleted and the new row inserted. -/
def upsertRow {α κ : Type} [DecidableEq κ] (key : α → κ) (t : List α)
    (r : α) : List α :=
  (t.filter fun x => decide (key x ≠ key r)) ++ [r]

/-- A multi-row INSERT OR REPLACE statement: one upsert per row, in row
order. -/
def upsertRows {α κ : Type} [DecidableEq κ] (key : α → κ) (t : List α)
    (rows : List α) : List α :=
  rows.foldl (upsertRow key) t

theorem upsertRows_normal_form {α κ : Type} [DecidableEq κ] (key : α → κ)
    (rows : List α) :
    ∀ t, upsertRows key t rows
      = (t.filter fun x => rows.all fun r => decide (key x ≠ key r))
        ++ upsertRows key [] rows := by
  induction rows with
  | nil =>
    intro t
    simp [upsertRows]
  | cons r rs ih =>
    intro t
    calc upsertRows key t (r :: rs)
        = upsertRows key (upsertRow key t r) rs := rfl
      _ = ((upsertRow key t r).filter
            fun x => rs.all fun s => decide (key x ≠ key s))
          ++ upsertRows key [] rs := ih _
      _ = ((t.filter fun x => decide (key x ≠ key r)).filter
            fun x => rs.all fun s => decide (key x ≠ key s))
          ++ (([r].filter fun x => rs.all fun s => decide (key x ≠ key s))
            ++ upsertRows key [] rs) := by
          rw [show upsertRow key t r
              = (t.filter fun x => decide (key x ≠ key r)) ++ [r] from rfl,
            List.filter_append, List.append_assoc]
      _ = (t.filter fun x => (r :: rs).all fun s => decide (key x ≠ key s))
          ++ (([r].filter fun x => rs.all fun s => decide (key x ≠ key s))
            ++ upsertRows key [] rs) := by
          rw [List.filter_filter]
          refine congrArg (fun l => l ++ _) (List.filter_congr ?_)
          intro x _
          rw [List.all_cons, Bool.and_comm]
      _ = (t.filter fun x => (r :: rs).all fun s => decide (key x ≠ key s))
          ++ upsertRows key [r] rs := by rw [← ih [r]]
      _ = (t.filter fun x => (r :: rs).all fun s => decide (key x ≠ key s))
          ++ upsertRows key [] (r :: rs) := rfl

theorem mem_upsertRows {α κ : Type} [DecidableEq κ] (key : α → κ)
    (rows : List α) :
    ∀ t x, x ∈ upsertRows key t rows →
      x ∈ t ∨ ∃ r ∈ rows, key x = key r := by
  induction rows with
  | nil =>
    intro t x hx
    exact Or.inl hx
  | cons r rs ih =>
    intro t x hx
    have hstep : upsertRows key t (r :: rs)
        = upsertRows key (upsertRow key t r) rs := rfl
    rw [hstep] at hx
    rcases ih _ x hx with hx1 | ⟨s, hs, hk⟩
    · rw [upsertRow] at hx1
      rcases List.mem_append.mp hx1 with hx2 | hx2
      · exact Or.inl (List.mem_filter.mp hx2).1
      · have hxr := List.mem_singleton.mp hx2
        exact Or.inr ⟨r, List.mem_cons_self _ _, by rw [hxr]⟩
    · exact Or.inr ⟨s, List.mem_cons_of_mem _ hs, hk⟩

theorem upsertRows_idem {α κ : Type} [DecidableEq κ] (key : α → κ)
    (t : List α) (rows : List α) :
    upsertRows key (upsertRows key t rows) rows = upsertRows key t rows := by
  have hA : ((t.filter fun x => rows.all fun r => decide (key x ≠ key r)).filter
      fun x => rows.all fun r => decide (key x ≠ key r))
      = t.filter fun x => rows.all fun r => decide (key x ≠ key r) := by
    rw [List.filter_filter]
    congr 1
    funext x
    cases rows.all fun r => decide (key x ≠ key r) <;> rfl
  have hB : ((upsertRows key [] rows).filter
      fun x => rows.all fun r => decide (key x ≠ key r)) = [] := by
    rw [List.filter_eq_nil_iff]
    intro x hx
    rcases mem_upsertRows key rows [] x hx with hx1 | ⟨r, hr, hk⟩
    · exact absurd hx1 (List.not_mem_nil x)
    · intro hall
      have := List.all_eq_true.mp hall r hr
      exact absurd hk (of_decide_eq_true this)
  conv_lhs => rw [upsertRows_normal_form key rows (upsertRows key t rows)]
  rw [upsertRows_normal_form key rows t, List.filter_append, hA, hB,
    List.append_nil]

/-- A row for the file_metadata table (batch/commands.rs
FileMetadataRow). -/
structure FileMetadataRow where
  path : String
  language : Option String
  file_size : ℤ
  content_hash : List ℕ
  mtime_secs : ℤ
  mtime_nanos : ℤ
  last_scanned_at : ℤ
  scan_duration_us : Option ℤ
  deriving DecidableEq, Repr

/-- A row for the parse_cache table (batch/commands.rs ParseCacheRow). -/
structure ParseCacheRow where
  content_hash : List ℕ
  language : String
  parse_result_json : String
  created_at : ℤ
  deriving DecidableEq, Repr

/-- A row for the functions table (batch/commands.rs FunctionRow). -/
structure FunctionRow where
  file : String
  name : String
  qualified_name : Option String
  language : String
  line : ℤ
  end_line : ℤ
  parameter_count : ℤ
  return_type : Option String
  is_exported : Bool
  is_async : Bool
  body_hash : List ℕ
  signature_hash : List ℕ
  deriving DecidableEq, Repr

/-- A row for the call_edges table (batch/commands.rs CallEdgeRow). -/
structure CallEdgeRow where
  caller_id : ℤ
  callee_id : ℤ
  resolution : String
  confidence : ℚ
  call_site_line : ℤ
  deriving DecidableEq, Repr

/-- A row for the detections table (batch/commands.rs DetectionRow). -/
structure DetectionRow where
  file : String
  line : ℤ
  column_num : ℤ
  pattern_id : String
  category : String
  confidence : ℚ
  detection_method : String
  cwe_ids : Option String
  owasp : Option String
  matched_text : Option String
  deriving DecidableEq, Repr

/-- A row for the boundaries table (batch/commands.rs BoundaryRow). -/
structure BoundaryRow where
  file : String
  framework : String
  model_name : String
  table_name : Option String
  field_name : Option String
  sensitivity : Option String
  confidence : ℚ
  deriving DecidableEq, Repr

/-- A row for the pattern_confidence table (batch/commands.rs
PatternConfidenceRow). -/
structure PatternConfidenceRow where
  pattern_id : String
  alpha : ℚ
  beta : ℚ
  posterior_mean : ℚ
  credible_interval_low : ℚ
  credible_interval_high : ℚ
  tier : String
  momentum : String
  deriving DecidableEq, Repr

/-- A row for the outliers table (batch/commands.rs
OutlierDetectionRow). -/
structure OutlierDetectionRow where
  pattern_id : String
  file : String
  line : ℤ
  deviation_score : ℚ
  significance : String
  method : String
  deriving DecidableEq, Repr

/-- A row for the conventions table (batch/commands.rs
ConventionInsertRow). -/
structure ConventionInsertRow where
  pattern_id : String
  category : String
  scope : String
  dominance_ratio : ℚ
  promotion_status : String
  discovered_at : ℤ
  last_seen : ℤ
  expires_at : Option ℤ
  deriving DecidableEq, Repr

/-- Commands the batch writer consumes (batch/commands.rs
BatchCommand). -/
inductive BatchCommand where
  | UpsertFileMetadata (rows : List FileMetadataRow)
  | InsertParseCache (rows : List ParseCacheRow)
  | InsertFunctions (rows : List FunctionRow)
  | DeleteFileMetadata (paths : List String)
  | Flush
  | Shutdown
  | InsertCallEdges (rows : List CallEdgeRow)
  | InsertDetections (rows : List DetectionRow)
  | InsertBoundaries (rows : List BoundaryRow)
  | InsertPatternConfidence (rows : List PatternConfidenceRow)
  | InsertOutliers (rows : List OutlierDetectionRow)
  | InsertConventions (rows : List ConventionInsertRow)
  deriving DecidableEq, Repr

/-- The visible state of the embedded store: one row list per table.
Modelled from the spec: the migrations module with the table schemas is
not in the sources; primary keys follow the spec's data model (path,
content hash, file::name, edge endpoints plus line, pattern id), and the
four plain-INSERT tables keep every inserted row in order. -/
structure DbState where
  file_metadata : List FileMetadataRow
  parse_cache : List ParseCacheRow
  functions : List FunctionRow
  call_edges : List CallEdgeRow
  detections : List DetectionRow
  boundaries : List BoundaryRow
  pattern_confidence : List PatternConfidenceRow
  outliers : List OutlierDetectionRow
  conventions : List ConventionInsertRow
  deriving DecidableEq, Repr

/-- The empty store. -/
def DbState.empty : DbState :=
  ⟨[], [], [], [], [], [], [], [], []⟩

/-- Per-command effect of the writer's statement execution
(batch/writer.rs flush_buffer body together with the per-table insert
helpers): INSERT OR REPLACE statements upsert on the table's primary
key; plain INSERT statements append; DELETE removes by path; Flush and
Shutdown execute no statement. -/
def applyCommand (db : DbState) : BatchCommand → DbState
  | .UpsertFileMetadata rows =>
    { db with
      file_metadata := upsertRows (fun r => r.path) db.file_metadata rows }
  | .InsertParseCache rows =>
    { db with
      parse_cache :=
        upsertRows (fun r => r.content_hash) db.parse_cache rows }
  | .InsertFunctions rows =>
    { db with
      functions := upsertRows (fun r => (r.file, r.name)) db.functions rows }
  | .DeleteFileMetadata paths =>
    { db with
      file_metadata :=
        db.file_metadata.filter (fun r => decide (r.path ∉ paths)) }
  | .Flush => db
  | .Shutdown => db
  | .InsertCallEdges rows =>
    { db with
      call_edges :=
        upsertRows (fun r => (r.caller_id, r.callee_id, r.call_site_line))
          db.call_edges rows }
  | .InsertDetections rows =>
    { db with detections := db.detections ++ rows }
  | .InsertBoundaries rows =>
    { db with boundaries := db.boundaries ++ rows }
  | .InsertPatternConfidence rows =>
    { db with
      pattern_confidence :=
        upsertRows (fun r => r.pattern_id) db.pattern_confidence rows }
  | .InsertOutliers rows =>
    { db with outliers := db.outliers ++ rows }
  | .InsertConventions rows =>
    { db with conventions := db.conventions ++ rows }

/-- A concrete detection row. -/
def d0w : DetectionRow :=
  { file := "a.py"
    line := 3
    column_num := 0
    pattern_id := "sql_injection"
    category := "security"
    confidence := 9 / 10
    detection_method := "regex"
    cwe_ids := some "89"
    owasp := none
    matched_text := none }

/-- C7 counterexample: the detections insert is a plain INSERT, so
applying the same InsertDetections command twice duplicates the row and
does not leave the store in the same state as applying it once. -/
theorem batch_insert_idempotent_counterexample :
    applyCommand (applyCommand DbState.empty (.InsertDetections [d0w]))
        (.InsertDetections [d0w])
      ≠ applyCommand DbState.empty (.InsertDetections [d0w]) := by
  intro h
  have hlen := congrArg (fun db => db.detections.length) h
  simp [applyCommand, DbState.empty] at hlen

/-- C7 amended: the table groups written with INSERT OR REPLACE — file
metadata, parse cache, functions, call edges, pattern confidence — are
idempotent under re-application of the same command; the detections,
boundaries, outliers and conventions groups use plain INSERT and append,
so re-application extends the table instead. -/
theorem batch_insert_idempotent_amended :
    (∀ db rows,
      applyCommand (applyCommand db (.UpsertFileMetadata rows))
          (.UpsertFileMetadata rows)
        = applyCommand db (.UpsertFileMetadata rows))
    ∧ (∀ db rows,
      applyCommand (applyCommand db (.InsertParseCache rows))
          (.InsertParseCache rows)
        = applyCommand db (.InsertParseCache rows))
    ∧ (∀ db rows,
      applyCommand (applyCommand db (.InsertFunctions rows))
          (.InsertFunctions rows)
        = applyCommand db (.InsertFunctions rows))
    ∧ (∀ db rows,
      applyCommand (applyCommand db (.InsertCallEdges rows))
          (.InsertCallEdges rows)
        = applyCommand db (.InsertCallEdges rows))
    ∧ (∀ db rows,
      applyCommand (applyCommand db (.InsertPatternConfidence rows))
          (.InsertPatternConfidence rows)
        = applyCommand db (.InsertPatternConfidence rows))
    ∧ (∀ db rows,
      applyCommand (applyCommand db (.InsertDetections rows))
          (.InsertDetections rows)
        = { applyCommand db (.InsertDetections rows) with
              detections := (applyCommand db
                (.InsertDetections rows)).detections ++ rows }) := by
  refine ⟨?_, ?_, ?_, ?_, ?_, ?_⟩ <;> intro db rows <;>
    simp [applyCommand, upsertRows_idem]

/-- Taint source-type tag (graph/taint/types.rs SourceType). Modelled
from the spec: a type tag with a printable name. -/
structure SourceType where
  name : String
  deriving DecidableEq, Repr

/-- The UserInput source type the engine falls back to. -/
def SourceType.UserInput : SourceType :=
  ⟨"user_input"⟩

/-- Taint sink-type tag (graph/taint/types.rs SinkType). Modelled from
the spec: a type tag carrying its printable name and its CWE number. -/
structure SinkType where
  name : String
  cwe : ℕ
  deriving DecidableEq, Repr

/-- graph/taint/types.rs SinkType::cwe_id. -/
def SinkType.cwe_id (s : SinkType) : ℕ :=
  s.cwe

/-- Sanitizer-type tag (graph/taint/types.rs SanitizerType). Modelled
from the spec. -/
structure SanitizerType where
  name : String
  deriving DecidableEq, Repr

/-- Taint label (graph/taint/types.rs TaintLabel). Modelled from the
spec: a fresh identity carrying its source-type. -/
structure TaintLabel where
  id : ℕ
  source_type : SourceType
  deriving DecidableEq, Repr

/-- graph/taint/types.rs TaintLabel::new. -/
def TaintLabel.new (id : ℕ) (source_type : SourceType) : TaintLabel :=
  ⟨id, source_type⟩

/-- A taint source occurrence (graph/taint/types.rs TaintSource).
Modelled from the spec. -/
structure TaintSource where
  file : String
  line : ℕ
  column : ℕ
  expression : String
  source_type : SourceType
  label : TaintLabel
  deriving DecidableEq, Repr

/-- A taint sink occurrence (graph/taint/types.rs TaintSink). Modelled
from the spec. -/
structure TaintSink where
  file : String
  line : ℕ
  column : ℕ
  expression : String
  sink_type : SinkType
  required_sanitizers : List SanitizerType
  deriving DecidableEq, Repr

/-- One hop of a taint path (graph/taint/types.rs TaintHop). Modelled
from the spec. -/
structure TaintHop where
  file : String
  line : ℕ
  column : ℕ
  function : String
  description : String
  deriving DecidableEq, Repr

/-- A recorded sanitizer application (graph/taint/types.rs
TaintSanitizer). Modelled from the spec. -/
structure TaintSanitizer where
  file : String
  line : ℕ
  expression : String
  sanitizer_type : SanitizerType
  labels_sanitized : List SinkType
  deriving DecidableEq, Repr

/-- A reported taint flow (graph/taint/types.rs TaintFlow). Modelled
from the spec. -/
structure TaintFlow where
  source : TaintSource
  sink : TaintSink
  path : List TaintHop
  is_sanitized : Bool
  sanitizers_applied : List TaintSanitizer
  cwe_id : ℕ
  confidence : ℚ
  deriving DecidableEq, Repr

/-- registry.rs SourcePattern. -/
structure SourcePattern where
  pattern : String
  source_type : SourceType
  framework : Option String
  deriving DecidableEq, Repr

/-- registry.rs SinkPattern. -/
structure SinkPattern where
  pattern : String
  sink_type : SinkType
  required_sanitizers : List SanitizerType
  framework : Option String
  deriving DecidableEq, Repr

/-- registry.rs SanitizerPattern. -/
structure SanitizerPattern where
  pattern : String
  sanitizer_type : SanitizerType
  protects_against : List SinkType
  framework : Option String
  deriving DecidableEq, Repr

/-- registry.rs TaintRegistry. -/
structure TaintRegistry where
  sources : List SourcePattern
  sinks : List SinkPattern
  sanitizers : List SanitizerPattern
  deriving DecidableEq, Repr

/-- The registry's matching relation: case-insensitive substring in
either direction between the candidate expression and the pattern. -/
def patternMatches (pat expression : String) : Bool :=
  let expr_lower := strLower expression
  let pattern_lower := strLower pat
  strContainsSub expr_lower pattern_lower
    || strContainsSub pattern_lower expr_lower

/-- registry.rs TaintRegistry::match_source. -/
def TaintRegistry.match_source (reg : TaintRegistry) (expression : String) :
    Option SourcePattern :=
  reg.sources.find? fun p => patternMatches p.pattern expression

/-- registry.rs TaintRegistry::match_sink. -/
def TaintRegistry.match_sink (reg : TaintRegistry) (expression : String) :
    Option SinkPattern :=
  reg.sinks.find? fun p => patternMatches p.pattern expression

/-- registry.rs TaintRegistry::match_sanitizer. -/
def TaintRegistry.match_sanitizer (reg : TaintRegistry)
    (expression : String) : Option SanitizerPattern :=
  reg.sanitizers.find? fun p => patternMatches p.pattern expression

/-- The full call name the engine matches on: receiver.callee or the
bare callee (intraprocedural.rs, both phases). -/
def fullNameOf (call : CallSite) : String :=
  match call.receiver with
  | some receiver => receiver ++ "." ++ call.callee_name
  | none => call.callee_name

/-- Parameter phase of intraprocedural.rs find_sources_in_function: one
seed per parameter whose name matches a source pattern, labels counted
from the given counter. -/
def sourcesFromParams (pr : ParseResult) (func_line : ℕ)
    (reg : TaintRegistry) : List ParamInfo → ℕ → List TaintSource × ℕ
  | [], c => ([], c)
  | p :: ps, c =>
    match reg.match_source p.name with
    | some sp =>
      let rest := sourcesFromParams pr func_line reg ps (c + 1)
      (⟨pr.file, func_line, 0, p.name, sp.source_type,
        TaintLabel.new c sp.source_type⟩ :: rest.1, rest.2)
    | none => sourcesFromParams pr func_line reg ps c

/-- Call-site phase of intraprocedural.rs find_sources_in_function: one
seed per in-range call whose full name matches a source pattern. -/
def sourcesFromCalls (pr : ParseResult) (func : FunctionInfo)
    (reg : TaintRegistry) : List CallSite → ℕ → List TaintSource × ℕ
  | [], c => ([], c)
  | call :: calls, c =>
    if func.line ≤ call.line ∧ call.line ≤ func.end_line then
      match reg.match_source (fullNameOf call) with
      | some sp =>
        let rest := sourcesFromCalls pr func reg calls (c + 1)
        (⟨pr.file, call.line, call.column, fullNameOf call, sp.source_type,
          TaintLabel.new c sp.source_type⟩ :: rest.1, rest.2)
      | none => sourcesFromCalls pr func reg calls c
    else sourcesFromCalls pr func reg calls c

/-- intraprocedural.rs find_sources_in_function: parameter seeds then
in-range call seeds, sharing the label counter. -/
def find_sources_in_function (func : FunctionInfo) (pr : ParseResult)
    (reg : TaintRegistry) (c0 : ℕ) : List TaintSource × ℕ :=
  let params := sourcesFromParams pr func.line reg func.parameters c0
  let calls := sourcesFromCalls pr func reg pr.call_sites params.2
  (params.1 ++ calls.1, calls.2)

/-- HashMap insert on the tainted-variable map: replace the binding if
the key is present, else append it. -/
def insertVar (m : List (String × TaintLabel)) (k : String)
    (v : TaintLabel) : List (String × TaintLabel) :=
  if m.any fun kv => kv.1 == k then
    m.map fun kv => if kv.1 == k then (k, v) else kv
  else m ++ [(k, v)]

/-- HashMap lookup on the tainted-variable map. -/
def lookupVar (m : List (String × TaintLabel)) (k : String) :
    Option TaintLabel :=
  (m.find? fun kv => kv.1 == k).map fun kv => kv.2

/-- HashSet insert on the sanitized-variable set. -/
def insertSet (s : List String) (x : String) : List String :=
  if s.contains x then s else s ++ [x]

/-- The tainted-variable map after the two seeding phases of
intraprocedural.rs analyze_function: the seeds' expressions, then the
matching parameters re-inserted with fresh labels. -/
def taintedInit (func : FunctionInfo) (pr : ParseResult)
    (reg : TaintRegistry) : List (String × TaintLabel) :=
  let fs := find_sources_in_function func pr reg 0
  let tainted0 :=
    fs.1.foldl (fun m src => insertVar m src.expression src.label) []
  (func.parameters.foldl
    (fun acc param =>
      match reg.match_source param.name with
      | some sp =>
        (insertVar acc.1 param.name (TaintLabel.new acc.2 sp.source_type),
          acc.2 + 1)
      | none => acc)
    (tainted0, fs.2)).1

/-- intraprocedural.rs find_calls_in_function. -/
def find_calls_in_function (func : FunctionInfo) (pr : ParseResult) :
    List CallSite :=
  pr.call_sites.filter fun c =>
    func.line ≤ c.line && c.line ≤ func.end_line

/-- Stable insertion by line: the inserted call goes before the first
strictly later call, after every call at its own line or earlier. -/
def insertByLine (c : CallSite) : List CallSite → List CallSite
  | [] => [c]
  | d :: t => if d.line < c.line then d :: insertByLine c t else c :: d :: t

/-- The stable sort by line of intraprocedural.rs analyze_function
(Rust sort_by_key is stable; a stable sort by key is unique, so this
insertion sort computes the same list). -/
def sort_by_line (l : List CallSite) : List CallSite :=
  l.foldr insertByLine []

/-- intraprocedural.rs check_taint_reaches_sink: the receiver is tainted
and not sanitized, or any tainted variable remains in scope. -/
def check_taint_reaches_sink (tainted : List (String × TaintLabel))
    (sanitized : List String) (call : CallSite) : Bool :=
  (match call.receiver with
    | some receiver =>
      (lookupVar tainted receiver).isSome && !(sanitized.contains receiver)
    | none => false)
  || !tainted.isEmpty

/-- intraprocedural.rs check_sanitized_for_sink. -/
def check_sanitized_for_sink (sanitizers : List TaintSanitizer)
    (sink_type : SinkType) : Bool :=
  sanitizers.any fun s => s.labels_sanitized.contains sink_type

/-- intraprocedural.rs build_intraprocedural_path: a source hop, then a
sink hop only when source and sink are on different lines. -/
def build_intraprocedural_path (source : TaintSource) (sink : TaintSink)
    (func : FunctionInfo) : List TaintHop :=
  ⟨source.file, source.line, source.column, func.name,
    "Taint introduced from " ++ source.source_type.name⟩
  :: (if source.line ≠ sink.line then
      [⟨sink.file, sink.line, sink.column, func.name,
        "Taint flows to " ++ sink.sink_type.name ++ " sink"⟩]
    else [])

/-- The fallback source intraprocedural.rs builds when no seed exists. -/
def fallbackSource (pr : ParseResult) (func : FunctionInfo) : TaintSource :=
  ⟨pr.file, func.line, 0, "unknown_source", SourceType.UserInput,
    TaintLabel.new 0 SourceType.UserInput⟩

/-- The per-call loop of intraprocedural.rs analyze_function (Phase 3):
sanitizer calls extend the sanitized set and the applied list; otherwise
sink-matching calls emit a flow when taint reaches them. -/
def processCalls (pr : ParseResult) (func : FunctionInfo)
    (reg : TaintRegistry) (sources : List TaintSource)
    (tainted : List (String × TaintLabel)) (sanitized_vars : List String)
    (sanitizers_applied : List TaintSanitizer) :
    List CallSite → List TaintFlow
  | [] => []
  | call :: rest =>
    let full_name := fullNameOf call
    match reg.match_sanitizer full_name with
    | some sanitizer_pattern =>
      let sanitized_vars1 :=
        match call.receiver with
        | some receiver => insertSet sanitized_vars receiver
        | none => sanitized_vars
      let sanitizers_applied1 := sanitizers_applied
        ++ [⟨pr.file, call.line, full_name,
          sanitizer_pattern.sanitizer_type,
          sanitizer_pattern.protects_against⟩]
      processCalls pr func reg sources tainted sanitized_vars1
        sanitizers_applied1 rest
    | none =>
      match reg.match_sink full_name with
      | some sink_pattern =>
        if check_taint_reaches_sink tainted sanitized_vars call then
          let is_sanitized :=
            check_sanitized_for_sink sanitizers_applied
              sink_pattern.sink_type
          let source := sources.head?.getD (fallbackSource pr func)
          let sink : TaintSink :=
            ⟨pr.file, call.line, call.column, full_name,
              sink_pattern.sink_type, sink_pattern.required_sanitizers⟩
          ⟨source, sink, build_intraprocedural_path source sink func,
            is_sanitized,
            (if is_sanitized then sanitizers_applied else []),
            sink_pattern.sink_type.cwe_id,
            (if is_sanitized then 3 / 10 else 85 / 100)⟩
          :: processCalls pr func reg sources tainted sanitized_vars
            sanitizers_applied rest
        else
          processCalls pr func reg sources tainted sanitized_vars
            sanitizers_applied rest
      | none =>
        processCalls pr func reg sources tainted sanitized_vars
          sanitizers_applied rest

/-- intraprocedural.rs analyze_function: seed, sort the in-range calls
by line, walk them. -/
def analyze_function (func : FunctionInfo) (pr : ParseResult)
    (reg : TaintRegistry) : List TaintFlow :=
  processCalls pr func reg (find_sources_in_function func pr reg 0).1
    (taintedInit func pr reg) [] []
    (sort_by_line (find_calls_in_function func pr))

/-- Whether a call matches a sanitizer pattern (the precedence test of
the per-call loop). -/
def isSanitizerCall (reg : TaintRegistry) (c : CallSite) : Bool :=
  (reg.match_sanitizer (fullNameOf c)).isSome

/-- One step of the sanitized-variable set along the processed calls. -/
def sanStep (reg : TaintRegistry) (s : List String) (c : CallSite) :
    List String :=
  match reg.match_sanitizer (fullNameOf c) with
  | some _ =>
    match c.receiver with
    | some receiver => insertSet s receiver
    | none => s
  | none => s

/-- The sanitized-variable set after processing the given calls. -/
def sanVarsAfter (reg : TaintRegistry) (calls : List CallSite) :
    List String :=
  calls.foldl (sanStep reg) []

/-- One step of the applied-sanitizer list along the processed calls. -/
def appStep (pr : ParseResult) (reg : TaintRegistry)
    (a : List TaintSanitizer) (c : CallSite) : List TaintSanitizer :=
  match reg.match_sanitizer (fullNameOf c) with
  | some sp =>
    a ++ [⟨pr.file, c.line, fullNameOf c, sp.sanitizer_type,
      sp.protects_against⟩]
  | none => a

/-- The applied-sanitizer list after processing the given calls. -/
def sanAppliedAfter (pr : ParseResult) (reg : TaintRegistry)
    (calls : List CallSite) : List TaintSanitizer :=
  calls.foldl (appStep pr reg) []

/-- The flow the engine emits at one call, as a function of the calls
processed before it, following the spec wording: a call that matches a
sanitizer emits nothing (sanitizer precedence); otherwise a sink-matching
call emits exactly when taint reaches it, with the sanitization flag
taken from the sanitizers applied at earlier calls in processed order,
the first seed as source, and the one- or two-hop path. -/
def mkFlowAt (pr : ParseResult) (func : FunctionInfo) (reg : TaintRegistry)
    (sources : List TaintSource) (tainted : List (String × TaintLabel))
    (pre : List CallSite) (c : CallSite) : Option TaintFlow :=
  match reg.match_sanitizer (fullNameOf c) with
  | some _ => none
  | none =>
    match reg.match_sink (fullNameOf c) with
    | some sink_pattern =>
      if check_taint_reaches_sink tainted (sanVarsAfter reg pre) c then
        let is_sanitized :=
          check_sanitized_for_sink (sanAppliedAfter pr reg pre)
            sink_pattern.sink_type
        let source := sources.head?.getD (fallbackSource pr func)
        let sink : TaintSink :=
          ⟨pr.file, c.line, c.column, fullNameOf c, sink_pattern.sink_type,
            sink_pattern.required_sanitizers⟩
        some ⟨source, sink, build_intraprocedural_path source sink func,
          is_sanitized,
          (if is_sanitized then sanAppliedAfter pr reg pre else []),
          sink_pattern.sink_type.cwe_id,
          (if is_sanitized then 3 / 10 else 85 / 100)⟩
      else none
    | none => none

/-- The per-call emissions over a call list, tracking the processed
prefix explicitly. -/
def flowsSpec (pr : ParseResult) (func : FunctionInfo)
    (reg : TaintRegistry) (sources : List TaintSource)
    (tainted : List (String × TaintLabel)) :
    List CallSite → List CallSite → List TaintFlow
  | _pre, [] => []
  | pre, c :: rest =>
    (mkFlowAt pr func reg sources tainted pre c).toList
      ++ flowsSpec pr func reg sources tainted (pre ++ [c]) rest

theorem sanVarsAfter_append (reg : TaintRegistry) (pre : List CallSite)
    (c : CallSite) :
    sanVarsAfter reg (pre ++ [c]) = sanStep reg (sanVarsAfter reg pre) c := by
  simp [sanVarsAfter, List.foldl_append]

theorem sanAppliedAfter_append (pr : ParseResult) (reg : TaintRegistry)
    (pre : List CallSite) (c : CallSite) :
    sanAppliedAfter pr reg (pre ++ [c])
      = appStep pr reg (sanAppliedAfter pr reg pre) c := by
  simp [sanAppliedAfter, List.foldl_append]

theorem processCalls_eq_flowsSpec (pr : ParseResult) (func : FunctionInfo)
    (reg : TaintRegistry) (sources : List TaintSource)
    (tainted : List (String × TaintLabel)) (calls : List CallSite) :
    ∀ pre,
      processCalls pr func reg sources tainted (sanVarsAfter reg pre)
          (sanAppliedAfter pr reg pre) calls
        = flowsSpec pr func reg sources tainted pre calls := by
  induction calls with
  | nil =>
    intro pre
    rfl
  | cons c rest ih =>
    intro pre
    simp only [processCalls, flowsSpec]
    cases hsan : reg.match_sanitizer (fullNameOf c) with
    | some sp =>
      have hsv : sanVarsAfter reg (pre ++ [c])
          = (match c.receiver with
            | some receiver => insertSet (sanVarsAfter reg pre) receiver
            | none => sanVarsAfter reg pre) := by
        rw [sanVarsAfter_append, sanStep, hsan]
      have hsa : sanAppliedAfter pr reg (pre ++ [c])
          = sanAppliedAfter pr reg pre
            ++ [⟨pr.file, c.line, fullNameOf c, sp.sanitizer_type,
              sp.protects_against⟩] := by
        rw [sanAppliedAfter_append, appStep, hsan]
      simp only [mkFlowAt, hsan, Option.toList_none, List.nil_append]
      rw [← ih (pre ++ [c]), hsv, hsa]
    | none =>
      have hsv : sanVarsAfter reg (pre ++ [c]) = sanVarsAfter reg pre := by
        rw [sanVarsAfter_append, sanStep, hsan]
      have hsa : sanAppliedAfter pr reg (pre ++ [c])
          = sanAppliedAfter pr reg pre := by
        rw [sanAppliedAfter_append, appStep, hsan]
      cases hsink : reg.match_sink (fullNameOf c) with
      | some sink_pattern =>
        simp only [mkFlowAt, hsan, hsink]
        by_cases hreach : check_taint_reaches_sink tainted
            (sanVarsAfter reg pre) c
        · simp only [hreach, if_true, Option.toList_some]
          rw [← ih (pre ++ [c]), hsv, hsa]
          rfl
        · simp only [hreach, Bool.false_eq_true, if_false,
            Option.toList_none, List.nil_append]
          rw [← ih (pre ++ [c]), hsv, hsa]
      | none =>
        simp only [mkFlowAt, hsan, hsink, Option.toList_none,
          List.nil_append]
        rw [← ih (pre ++ [c]), hsv, hsa]

theorem analyze_function_eq_flowsSpec (func : FunctionInfo)
    (pr : ParseResult) (reg : TaintRegistry) :
    analyze_function func pr reg
      = flowsSpec pr func reg (find_sources_in_function func pr reg 0).1
        (taintedInit func pr reg) []
        (sort_by_line (find_calls_in_function func pr)) := by
  have h := processCalls_eq_flowsSpec pr func reg
    (find_sources_in_function func pr reg 0).1 (taintedInit func pr reg)
    (sort_by_line (find_calls_in_function func pr)) []
  simpa [analyze_function, sanVarsAfter, sanAppliedAfter] using h

theorem mem_flowsSpec (pr : ParseResult) (func : FunctionInfo)
    (reg : TaintRegistry) (sources : List TaintSource)
    (tainted : List (String × TaintLabel)) (calls : List CallSite) :
    ∀ pre f, f ∈ flowsSpec pr func reg sources tainted pre calls →
      ∃ pre2 c, mkFlowAt pr func reg sources tainted pre2 c = some f := by
  induction calls with
  | nil =>
    intro pre f hf
    simp [flowsSpec] at hf
  | cons c rest ih =>
    intro pre f hf
    simp only [flowsSpec] at hf
    rcases List.mem_append.mp hf with h1 | h2
    · cases hm : mkFlowAt pr func reg sources tainted pre c with
      | none =>
        rw [hm] at h1
        simp at h1
      | some g =>
        rw [hm] at h1
        simp only [Option.toList_some, List.mem_singleton] at h1
        exact ⟨pre, c, by rw [hm, h1]⟩
    · exact ih (pre ++ [c]) f h2

theorem check_taint_reaches_sink_nil (sanitized : List String)
    (call : CallSite) :
    check_taint_reaches_sink [] sanitized call = false := by
  cases hr : call.receiver with
  | none => simp [check_taint_reaches_sink, hr]
  | some receiver =>
    simp [check_taint_reaches_sink, hr, lookupVar, List.find?]

theorem mkFlowAt_props (pr : ParseResult) (func : FunctionInfo)
    (reg : TaintRegistry) (sources : List TaintSource)
    (tainted : List (String × TaintLabel)) (pre : List CallSite)
    (c : CallSite) (f : TaintFlow)
    (h : mkFlowAt pr func reg sources tainted pre c = some f) :
    f.confidence = (if f.is_sanitized then 3 / 10 else 85 / 100)
    ∧ f.source = sources.head?.getD (fallbackSource pr func)
    ∧ f.path = build_intraprocedural_path f.source f.sink func
    ∧ tainted ≠ [] := by
  unfold mkFlowAt at h
  cases hsan : reg.match_sanitizer (fullNameOf c) with
  | some sp =>
    rw [hsan] at h
    dsimp only at h
    exact Option.noConfusion h
  | none =>
  rw [hsan] at h
  cases hsink : reg.match_sink (fullNameOf c) with
  | none =>
    rw [hsink] at h
    dsimp only at h
    exact Option.noConfusion h
  | some sink_pattern =>
  rw [hsink] at h
  dsimp only at h
  by_cases hreach : check_taint_reaches_sink tainted (sanVarsAfter reg pre) c
  · rw [if_pos hreach] at h
    have hf := (Option.some.inj h).symm
    subst hf
    refine ⟨rfl, rfl, rfl, ?_⟩
    intro hnil
    subst hnil
    rw [check_taint_reaches_sink_nil] at hreach
    exact Bool.noConfusion hreach
  · rw [if_neg hreach] at h
    exact Option.noConfusion h

theorem sourcesFromParams_eq_nil (pr : ParseResult) (func_line : ℕ)
    (reg : TaintRegistry) :
    ∀ ps c, (sourcesFromParams pr func_line reg ps c).1 = [] →
      ∀ p ∈ ps, reg.match_source p.name = none := by
  intro ps
  induction ps with
  | nil =>
    intro c _ p hp
    exact absurd hp (List.not_mem_nil p)
  | cons p ps ih =>
    intro c h q hq
    unfold sourcesFromParams at h
    cases hm : reg.match_source p.name with
    | some sp =>
      rw [hm] at h
      exact List.noConfusion h
    | none =>
      rw [hm] at h
      rcases List.mem_cons.mp hq with hq1 | hq2
      · rw [hq1]
        exact hm
      · exact ih c h q hq2

theorem sources_ne_nil_of_tainted (func : FunctionInfo) (pr : ParseResult)
    (reg : TaintRegistry) (h : taintedInit func pr reg ≠ []) :
    (find_sources_in_function func pr reg 0).1 ≠ [] := by
  intro hs
  apply h
  have hparams : (sourcesFromParams pr func.line reg func.parameters 0).1
      = [] := by
    have hsplit := hs
    unfold find_sources_in_function at hsplit
    dsimp only at hsplit
    exact (List.append_eq_nil.mp hsplit).1
  have hnone : ∀ p ∈ func.parameters, reg.match_source p.name = none :=
    sourcesFromParams_eq_nil pr func.line reg func.parameters 0 hparams
  have hfold : ∀ (ps : List ParamInfo),
      (∀ p ∈ ps, reg.match_source p.name = none) →
      ∀ (acc : List (String × TaintLabel) × ℕ),
        ps.foldl
          (fun acc param =>
            match reg.match_source param.name with
            | some sp =>
              (insertVar acc.1 param.name
                (TaintLabel.new acc.2 sp.source_type), acc.2 + 1)
            | none => acc)
          acc = acc := by
    intro ps
    induction ps with
    | nil =>
      intro _ acc
      rfl
    | cons p ps ih =>
      intro hps acc
      have hp := hps p (List.mem_cons_self _ _)
      show List.foldl _ _ (p :: ps) = acc
      rw [List.foldl_cons]
      have hstep :
          (match reg.match_source p.name with
            | some sp =>
              (insertVar acc.1 p.name
                (TaintLabel.new acc.2 sp.source_type), acc.2 + 1)
            | none => acc) = acc := by
        rw [hp]
      rw [hstep]
      exact ih (fun q hq => hps q (List.mem_cons_of_mem _ hq)) acc
  unfold taintedInit
  dsimp only
  rw [hfold func.parameters hnone]
  dsimp only
  rw [hs]
  rfl

/-- C3 (amended): the engine's emissions equal the closed-form rule — a
call matching a sanitizer pattern emits nothing (sanitizer precedence);
otherwise a sink-matching call emits a flow exactly when taint reaches
it, with the sanitization flag true exactly when a sanitizer protecting
against this sink-type was applied at an earlier call in processed line
order. Every emitted flow carries confidence 0.85 unsanitized or 0.30
sanitized, the first seed of the function as its source, and a path of a
source hop plus a sink hop exactly when source and sink lines differ. -/
theorem taint_flow_emission (func : FunctionInfo) (pr : ParseResult)
    (reg : TaintRegistry) :
    (analyze_function func pr reg
      = flowsSpec pr func reg (find_sources_in_function func pr reg 0).1
        (taintedInit func pr reg) []
        (sort_by_line (find_calls_in_function func pr)))
    ∧ ∀ f ∈ analyze_function func pr reg,
        f.confidence = (if f.is_sanitized then 3 / 10 else 85 / 100)
        ∧ (∃ s rest, (find_sources_in_function func pr reg 0).1 = s :: rest
            ∧ f.source = s)
        ∧ f.path = build_intraprocedural_path f.source f.sink func
        ∧ (f.source.line = f.sink.line → f.path.length = 1)
        ∧ (f.source.line ≠ f.sink.line → f.path.length = 2) := by
  refine ⟨analyze_function_eq_flowsSpec func pr reg, ?_⟩
  intro f hf
  rw [analyze_function_eq_flowsSpec func pr reg] at hf
  obtain ⟨pre2, c, hm⟩ := mem_flowsSpec pr func reg
    (find_sources_in_function func pr reg 0).1 (taintedInit func pr reg)
    (sort_by_line (find_calls_in_function func pr)) [] f hf
  obtain ⟨hconf, hsrc, hpath, htaint⟩ := mkFlowAt_props pr func reg
    (find_sources_in_function func pr reg 0).1 (taintedInit func pr reg)
    pre2 c f hm
  have hsne := sources_ne_nil_of_tainted func pr reg htaint
  refine ⟨hconf, ?_, hpath, ?_, ?_⟩
  · cases hlist : (find_sources_in_function func pr reg 0).1 with
    | nil => exact absurd hlist hsne
    | cons s rest =>
      refine ⟨s, rest, rfl, ?_⟩
      rw [hsrc, hlist]
      rfl
  · intro hline
    rw [hpath]
    unfold build_intraprocedural_path
    rw [if_neg (by simpa using hline)]
    rfl
  · intro hline
    rw [hpath]
    unfold build_intraprocedural_path
    rw [if_pos hline]
    rfl

theorem flowsSpec_mem_at (pr : ParseResult) (func : FunctionInfo)
    (reg : TaintRegistry) (sources : List TaintSource)
    (tainted : List (String × TaintLabel)) (c : CallSite)
    (l₂ : List CallSite) (f : TaintFlow) :
    ∀ l₁ pre, mkFlowAt pr func reg sources tainted (pre ++ l₁) c = some f →
      f ∈ flowsSpec pr func reg sources tainted pre (l₁ ++ c :: l₂) := by
  intro l₁
  induction l₁ with
  | nil =>
    intro pre hm
    rw [List.append_nil] at hm
    simp only [List.nil_append, flowsSpec, hm, Option.toList_some]
    exact List.mem_append_left _ (List.mem_singleton.mpr rfl)
  | cons d t ih =>
    intro pre hm
    simp only [List.cons_append, flowsSpec]
    refine List.mem_append_right _ ?_
    apply ih (pre ++ [d])
    rw [List.append_assoc]
    exact hm

/-- C10 (amended): the tainted-variable map is seeded before the call
walk and never shrinks — a sanitizer call only records its application
and adds its receiver to the separate sanitized set. Hence once any
variable is tainted, every sink-matching call that does not itself match
a sanitizer pattern emits a flow at its own line and expression; a
preceding compatible sanitizer can only set the flow's sanitization flag
and lower its confidence to 0.30, never suppress the flow. -/
theorem taint_sink_never_suppressed (func : FunctionInfo)
    (pr : ParseResult) (reg : TaintRegistry) (l₁ : List CallSite)
    (c : CallSite) (l₂ : List CallSite) (sink_pattern : SinkPattern)
    (hdec : sort_by_line (find_calls_in_function func pr) = l₁ ++ c :: l₂)
    (htaint : taintedInit func pr reg ≠ [])
    (hnotsan : reg.match_sanitizer (fullNameOf c) = none)
    (hs : reg.match_sink (fullNameOf c) = some sink_pattern) :
    ∃ f ∈ analyze_function func pr reg,
      f.sink.line = c.line ∧ f.sink.column = c.column
      ∧ f.sink.expression = fullNameOf c
      ∧ f.sink.sink_type = sink_pattern.sink_type
      ∧ f.confidence = (if f.is_sanitized then 3 / 10 else 85 / 100) := by
  have hempty : (taintedInit func pr reg).isEmpty = false := by
    cases hti : taintedInit func pr reg with
    | nil => exact absurd hti htaint
    | cons a t => rfl
  have hreach : check_taint_reaches_sink (taintedInit func pr reg)
      (sanVarsAfter reg l₁) c = true := by
    unfold check_taint_reaches_sink
    simp [hempty]
  cases hm : mkFlowAt pr func reg (find_sources_in_function func pr reg 0).1
      (taintedInit func pr reg) l₁ c with
  | none =>
    exfalso
    unfold mkFlowAt at hm
    rw [hnotsan] at hm
    dsimp only at hm
    rw [hs] at hm
    dsimp only at hm
    rw [if_pos hreach] at hm
    exact Option.noConfusion hm
  | some f =>
    have hmem : f ∈ analyze_function func pr reg := by
      rw [analyze_function_eq_flowsSpec func pr reg, hdec]
      exact flowsSpec_mem_at pr func reg
        (find_sources_in_function func pr reg 0).1
        (taintedInit func pr reg) c l₂ f l₁ [] hm
    unfold mkFlowAt at hm
    rw [hnotsan] at hm
    dsimp only at hm
    rw [hs] at hm
    dsimp only at hm
    rw [if_pos hreach] at hm
    have hf := (Option.some.inj hm).symm
    subst hf
    exact ⟨_, hmem, rfl, rfl, rfl, rfl, rfl⟩

/-- A registry whose sink pattern is also hit by a sanitizer pattern. -/
def cxRegA : TaintRegistry :=
  { sources := [⟨"user_input", ⟨"user_input"⟩, none⟩]
    sinks := [⟨"sanitize_and_run", ⟨"os_command", 78⟩, [], none⟩]
    sanitizers := [⟨"sanitize", ⟨"shell_escape"⟩, [⟨"os_command", 78⟩], none⟩] }

/-- A function with a tainted parameter. -/
def cxFuncA : FunctionInfo :=
  ⟨"runner", none, [⟨"user_input"⟩], [], 1, 10, false, 0, 0⟩

/-- A call matching both the sink and the sanitizer pattern. -/
def cxCallA : CallSite :=
  ⟨"sanitize_and_run", none, 3, 0, 1, false⟩

/-- The file holding them. -/
def cxPrA : ParseResult :=
  ⟨"m.py", "python", [cxFuncA], [cxCallA], []⟩

/-- C3 counterexample: this call matches the sink pattern and taint
reaches it, yet no flow is emitted, because the call also matches a
sanitizer pattern and sanitizer matching takes precedence — refuting the
unqualified reading that a sink-matching call emits exactly when taint
reaches it. -/
theorem taint_flow_emission_counterexample :
    (cxRegA.match_sink (fullNameOf cxCallA)).isSome = true
    ∧ check_taint_reaches_sink (taintedInit cxFuncA cxPrA cxRegA)
        (sanVarsAfter cxRegA []) cxCallA = true
    ∧ analyze_function cxFuncA cxPrA cxRegA = [] :=
  ⟨rfl, rfl, rfl⟩

/-- A second registry with an overlapping sink and sanitizer pattern. -/
def cxRegB : TaintRegistry :=
  { sources := [⟨"request", ⟨"user_input"⟩, none⟩]
    sinks := [⟨"escape_output", ⟨"html_output", 79⟩, [], none⟩]
    sanitizers := [⟨"escape", ⟨"html_escape"⟩, [⟨"html_output", 79⟩], none⟩] }

/-- A function with a tainted parameter. -/
def cxFuncB : FunctionInfo :=
  ⟨"render_page", none, [⟨"request"⟩], [], 1, 8, false, 0, 0⟩

/-- A call matching both the sink and the sanitizer pattern. -/
def cxCallB : CallSite :=
  ⟨"escape_output", none, 4, 0, 1, false⟩

/-- The file holding them. -/
def cxPrB : ParseResult :=
  ⟨"v.py", "python", [cxFuncB], [cxCallB], []⟩

/-- C10 counterexample: a variable is tainted and the call matches the
sink pattern, yet no flow is emitted, because the call itself matches a
sanitizer pattern — refuting the unqualified reading that every
subsequent sink-matching call emits a flow. -/
theorem taint_sink_never_suppressed_counterexample :
    taintedInit cxFuncB cxPrB cxRegB ≠ []
    ∧ (cxRegB.match_sink (fullNameOf cxCallB)).isSome = true
    ∧ analyze_function cxFuncB cxPrB cxRegB = [] := by
  refine ⟨?_, rfl, rfl⟩
  rw [show taintedInit cxFuncB cxPrB cxRegB
      = [("request", ⟨1, ⟨"user_input"⟩⟩)] from rfl]
  simp

/-- The witness registry: one source, one sink, no sanitizers. -/
def wtReg : TaintRegistry :=
  { sources := [⟨"user_input", ⟨"user_input"⟩, none⟩]
    sinks := [⟨"db.query", ⟨"sql_query", 89⟩, [], none⟩]
    sanitizers := [] }

/-- The witness function: one tainted parameter. -/
def wtFunc : FunctionInfo :=
  ⟨"handler", none, [⟨"user_input"⟩], [], 1, 10, false, 0, 0⟩

/-- The witness call: a sink call on line 5. -/
def wtCall : CallSite :=
  ⟨"query", some "db", 5, 2, 1, false⟩

/-- The witness file. -/
def wtPr : ParseResult :=
  ⟨"app.py", "python", [wtFunc], [wtCall], []⟩

/-- The taint source the witness function seeds. -/
def wtSource : TaintSource :=
  ⟨"app.py", 1, 0, "user_input", ⟨"user_input"⟩, ⟨0, ⟨"user_input"⟩⟩⟩

/-- The taint sink the witness call hits. -/
def wtSink : TaintSink :=
  ⟨"app.py", 5, 2, "db.query", ⟨"sql_query", 89⟩, []⟩

/-- The flow the engine reports for the witness input. -/
def wtFlow : TaintFlow :=
  { source := wtSource
    sink := wtSink
    path :=
      [⟨"app.py", 1, 0, "handler", "Taint introduced from user_input"⟩,
        ⟨"app.py", 5, 2, "handler", "Taint flows to sql_query sink"⟩]
    is_sanitized := false
    sanitizers_applied := []
    cwe_id := 89
    confidence := 85 / 100 }

/-- Witness for C3 at a concrete input: the single unsanitized sink call
yields one flow with confidence 0.85 and a two-hop path. -/
theorem taint_flow_emission_witness :
    wtFlow ∈ analyze_function wtFunc wtPr wtReg
    ∧ wtFlow.confidence
        = (if wtFlow.is_sanitized then 3 / 10 else 85 / 100)
    ∧ wtFlow.path.length = 2 := by
  have hmem : wtFlow ∈ analyze_function wtFunc wtPr wtReg := by
    rw [show analyze_function wtFunc wtPr wtReg = [wtFlow] from rfl]
    exact List.mem_singleton.mpr rfl
  obtain ⟨h1, _, _, _, h5⟩ :=
    (taint_flow_emission wtFunc wtPr wtReg).2 wtFlow hmem
  exact ⟨hmem, h1, h5 (by decide)⟩

/-- Witness for C10 at a concrete input: with a tainted parameter, the
non-sanitizer sink call emits a flow at its own line and expression. -/
theorem taint_sink_never_suppressed_witness :
    ∃ f ∈ analyze_function wtFunc wtPr wtReg,
      f.sink.line = wtCall.line ∧ f.sink.column = wtCall.column
      ∧ f.sink.expression = fullNameOf wtCall
      ∧ f.sink.sink_type = SinkType.mk "sql_query" 89
      ∧ f.confidence = (if f.is_sanitized then 3 / 10 else 85 / 100) :=
  taint_sink_never_suppressed wtFunc wtPr wtReg [] wtCall []
    ⟨"db.query", ⟨"sql_query", 89⟩, [], none⟩ rfl
    (by
      rw [show taintedInit wtFunc wtPr wtReg
          = [("user_input", ⟨1, ⟨"user_input"⟩⟩)] from rfl]
      simp)
    rfl rfl

end Drift
